import Mathlib

/-!
Verification development for the mdmd repository: a shallow embedding of the
index-cache refresh engine, the symlink projection reconciler, the metadata
field-ownership model, and the remove/unlink mutation primitives, together
with theorems settling the specification claims about them.

Frontmatter maps are embedded as ordered association lists mirroring
JavaScript object semantics (spread updates a key in place, `delete` removes
it).  Absolute filesystem paths are plain strings; containment checks mirror
`path.relative` plus the `startsWith("..")` test via segment prefixes.
-/

set_option maxHeartbeats 1000000

namespace Mdmd

/-! ## Frontmatter values and JavaScript object operations -/

/-- A frontmatter value as the TypeScript code discriminates them:
`typeof v === "string"`, `Array.isArray(v)`, numbers and booleans. -/
inductive FmValue where
  | vStr (s : String)
  | vList (xs : List String)
  | vNum (n : Int)
  | vBool (b : Bool)
deriving DecidableEq, Repr

/-- An ordered string-keyed map, as a JavaScript object holds frontmatter. -/
abbrev Frontmatter := List (String × FmValue)

/-- Property read `fm[k]`: first entry with the key. -/
def fmLookup (fm : Frontmatter) (k : String) : Option FmValue :=
  (fm.find? (fun p => p.1 = k)).map (·.2)

/-- JavaScript object update `{...fm, k: v}`: replace the value in place when
the key exists, otherwise append the new key at the end. -/
def fmSet (fm : Frontmatter) (k : String) (v : FmValue) : Frontmatter :=
  if fm.any (fun p => p.1 = k) then
    fm.map (fun p => if p.1 = k then (k, v) else p)
  else
    fm ++ [(k, v)]

/-- JavaScript `delete fm[k]`. -/
def fmDelete (fm : Frontmatter) (k : String) : Frontmatter :=
  fm.filter (fun p => p.1 ≠ k)

/-- JavaScript falsiness of an optional property value (`!fm.k`). -/
def jsFalsy : Option FmValue → Bool
  | none => true
  | some (.vStr s) => s = ""
  | some (.vList _) => false
  | some (.vNum n) => n = 0
  | some (.vBool b) => b = false

/-! ## Kernel-reducible string primitives

The Lean core `String.splitOn` and `String.trim` are defined by
well-founded recursion on byte positions and do not reduce inside the
kernel, so the embedding re-implements the few string operations the code
uses as structural recursion over character lists.  They agree with the
JavaScript operations on the inputs the system handles. -/

/-- Split a character list on a separator character (every occurrence). -/
def splitOnChar (c : Char) : List Char → List (List Char)
  | [] => [[]]
  | x :: xs =>
    match splitOnChar c xs with
    | [] => [[]]
    | h :: t => if x = c then [] :: h :: t else (x :: h) :: t

/-- `s.split("/")`. -/
def splitOnSlash (s : String) : List String :=
  (splitOnChar '/' s.data).map String.mk

/-- Join character lists with a separator character. -/
def joinChars (sep : Char) : List (List Char) → List Char
  | [] => []
  | [x] => x
  | x :: y :: t => x ++ sep :: joinChars sep (y :: t)

/-- Join path pieces with `/`, producing a relative path string. -/
def renderRelSegs (segs : List String) : String :=
  String.mk (joinChars '/' (segs.map (·.data)))

/-- Join path pieces with `/`, producing an absolute path string. -/
def renderAbsSegs (segs : List String) : String :=
  String.mk ('/' :: joinChars '/' (segs.map (·.data)))

/-- `String.prototype.trim()` for the whitespace the code encounters. -/
def trimString (s : String) : String :=
  String.mk (((s.data.dropWhile Char.isWhitespace).reverse.dropWhile Char.isWhitespace).reverse)

/-- Does the string start with `/` (`path.isAbsolute`)? -/
def startsWithSlash (s : String) : Bool :=
  match s.data with
  | '/' :: _ => true
  | _ => false

/-- Bytewise (ASCII) string order, the collation of
`ORDER BY path_in_collection ASC`. -/
def charListLe : List Char → List Char → Bool
  | [], _ => true
  | _ :: _, [] => false
  | a :: as, b :: bs => if a < b then true else if b < a then false else charListLe as bs

/-- String comparison for `ORDER BY .. ASC`. -/
def strLe (a b : String) : Bool :=
  charListLe a.data b.data

/-! ## Path helpers

Absolute paths are strings such as `/work/project`; collection-relative
paths use forward slashes (`sub/note.md`).  `isWithinDir` is the combined
`path.relative` / `startsWith("..")` / `isAbsolute` containment check of
`assertPathInDirectory`, expressed on normalized segment lists. -/

/-- Segments of a path string, dropping empty pieces. -/
def pathSegs (p : String) : List String :=
  (splitOnSlash p).filter (fun s => s ≠ "")

/-- `assertPathInDirectory dir cand` succeeds exactly when this is true:
the candidate lies inside (or is) the directory. -/
def isWithinDir (dir cand : String) : Bool :=
  (pathSegs dir).isPrefixOf (pathSegs cand)

/-- `toCollectionRelativePath`: the collection-relative, slash-separated
path of an absolute path known to lie inside the collection root. -/
def toCollectionRelativePath (collectionRoot absolutePath : String) : String :=
  renderRelSegs ((pathSegs absolutePath).drop (pathSegs collectionRoot).length)

/-- `path.join` of an absolute directory and a relative slash path. -/
def joinPath (root rel : String) : String :=
  renderAbsSegs (pathSegs root ++ pathSegs rel)

/-- `path.resolve(dir, t)` for a symlink target `t` read back with
`readlink`: an absolute target resolves to itself. -/
def jsResolveFrom (dir t : String) : String :=
  if startsWithSlash t then t else renderAbsSegs (pathSegs dir ++ pathSegs t)

/-- `path.posix.dirname` for the clean paths the code handles. -/
def posixDirname (p : String) : String :=
  let parts := splitOnSlash p
  if parts.length ≤ 1 then "."
  else
    let front := parts.dropLast
    if front.all (fun s => s = "") then "/" else renderRelSegs front

/-- `path.posix.basename` for the clean paths the code handles. -/
def posixBasenameOf (p : String) : String :=
  if p = "/" then ""
  else
    match ((splitOnSlash p).filter (fun s => s ≠ "")).getLast? with
    | some s => s
    | none => p

/-- Index of the last occurrence of a character, if any. -/
def lastIdxOf (c : Char) : List Char → Option Nat
  | [] => none
  | x :: xs =>
    match lastIdxOf c xs with
    | some i => some (i + 1)
    | none => if x = c then some 0 else none

/-- Extension part of `path.posix.parse(p).ext` applied to a basename:
from the last dot, unless that dot starts the name. -/
def posixExtOf (base : String) : String :=
  match lastIdxOf '.' base.toList with
  | none => ""
  | some 0 => ""
  | some i => String.mk (base.toList.drop i)

/-- Stem part `path.posix.parse(p).name` applied to a basename. -/
def posixNameOf (base : String) : String :=
  match lastIdxOf '.' base.toList with
  | none => base
  | some 0 => base
  | some i => String.mk (base.toList.take i)

/-! ## ISO-8601 timestamp validation (`resolveCreatedAt`)

`link.ts` tests `/^\d{4}-\d{2}-\d{2}T\d{2}:\d{2}:\d{2}(?:\.\d+)?Z?$/` and
`ingest.ts` tests `/^\d{4}-\d{2}-\d{2}T\d{2}:\d{2}:\d{2}(?:\.\d{3})?Z$/`,
both followed by `!Number.isNaN(Date.parse(value))`, which for strings of
this shape rejects exactly the out-of-range component combinations. -/

structure IsoComponents where
  year : Nat
  month : Nat
  day : Nat
  hour : Nat
  minute : Nat
  second : Nat
  /-- Fractional digits value, when the optional fraction is present. -/
  frac : Option Nat
  hasZ : Bool
deriving DecidableEq, Repr

/-- Consume exactly `k` decimal digits, returning their value. -/
def takeDigits : Nat → List Char → Option (Nat × List Char)
  | 0, cs => some (0, cs)
  | _ + 1, [] => none
  | k + 1, c :: cs =>
    if c.isDigit then
      match takeDigits k cs with
      | some (v, rest) => some ((c.toNat - '0'.toNat) * 10 ^ k + v, rest)
      | none => none
    else none

/-- Consume one or more decimal digits. -/
def takeDigits1 : List Char → Option (Nat × List Char)
  | [] => none
  | c :: cs =>
    if c.isDigit then
      match takeDigits1 cs with
      | some (v, rest) => some ((c.toNat - '0'.toNat) * 10 ^ rest.length + v, rest)
      | none => some (c.toNat - '0'.toNat, cs)
    else none

/-- Consume a literal character. -/
def takeChar (c : Char) : List Char → Option (List Char)
  | [] => none
  | x :: xs => if x = c then some xs else none

/-- Parse `\d{4}-\d{2}-\d{2}T\d{2}:\d{2}:\d{2}`, the shared date-time core. -/
def parseIsoCore (cs : List Char) : Option (IsoComponents × List Char) := do
  let (y, cs) ← takeDigits 4 cs
  let cs ← takeChar '-' cs
  let (mo, cs) ← takeDigits 2 cs
  let cs ← takeChar '-' cs
  let (d, cs) ← takeDigits 2 cs
  let cs ← takeChar 'T' cs
  let (h, cs) ← takeDigits 2 cs
  let cs ← takeChar ':' cs
  let (mi, cs) ← takeDigits 2 cs
  let cs ← takeChar ':' cs
  let (s, cs) ← takeDigits 2 cs
  some (⟨y, mo, d, h, mi, s, none, false⟩, cs)

/-- Match the `link.ts` pattern `(?:\.\d+)?Z?$` tail and record the pieces. -/
def parseIsoTailLink (c : IsoComponents) : List Char → Option IsoComponents
  | [] => some c
  | ['Z'] => some { c with hasZ := true }
  | '.' :: rest =>
    match takeDigits1 rest with
    | some (v, []) => some { c with frac := some v }
    | some (v, ['Z']) => some { c with frac := some v, hasZ := true }
    | _ => none
  | _ => none

/-- Match the `ingest.ts` pattern `(?:\.\d{3})?Z$` tail. -/
def parseIsoTailIngest (c : IsoComponents) : List Char → Option IsoComponents
  | ['Z'] => some { c with hasZ := true }
  | '.' :: rest =>
    match takeDigits 3 rest with
    | some (v, ['Z']) => some { c with frac := some v, hasZ := true }
    | _ => none
  | _ => none

/-- Full match of the `link.ts` timestamp pattern. -/
def parseIsoLink (s : String) : Option IsoComponents :=
  match parseIsoCore s.toList with
  | some (c, rest) => parseIsoTailLink c rest
  | none => none

/-- Full match of the `ingest.ts` timestamp pattern. -/
def parseIsoIngest (s : String) : Option IsoComponents :=
  match parseIsoCore s.toList with
  | some (c, rest) => parseIsoTailIngest c rest
  | none => none

/-- Gregorian leap year. -/
def isLeapYear (y : Nat) : Bool :=
  (y % 4 = 0 && y % 100 ≠ 0) || y % 400 = 0

/-- Days in a month. -/
def daysInMonth (y m : Nat) : Nat :=
  if m = 2 then (if isLeapYear y then 29 else 28)
  else if m = 4 ∨ m = 6 ∨ m = 9 ∨ m = 11 then 30
  else 31

/-- `!Number.isNaN(Date.parse s)` for a string of the matched shape: all
components in range (hour 24 only at exactly midnight-end). -/
def isoComponentsInRange (c : IsoComponents) : Bool :=
  1 ≤ c.month && c.month ≤ 12 &&
  1 ≤ c.day && c.day ≤ daysInMonth c.year c.month &&
  c.minute ≤ 59 && c.second ≤ 59 &&
  (c.hour ≤ 23 || (c.hour = 24 && c.minute = 0 && c.second = 0 && (c.frac = none || c.frac = some 0)))

/-- The `link.ts` guard `PATTERN.test v && !Number.isNaN(Date.parse v)`. -/
def createdAtValidLink (v : String) : Bool :=
  match parseIsoLink v with
  | some c => isoComponentsInRange c
  | none => false

/-- The `ingest.ts` guard, with its stricter pattern. -/
def createdAtValidIngest (v : String) : Bool :=
  match parseIsoIngest v with
  | some c => isoComponentsInRange c
  | none => false

/-- `resolveCreatedAt` of `link.ts`: keep a valid existing timestamp
(trimmed), otherwise fall back to the current time. -/
def resolveCreatedAt (rawCreatedAt : Option FmValue) (fallback : String) : String :=
  match rawCreatedAt with
  | some (.vStr s) =>
    let value := trimString s
    if createdAtValidLink value then value else fallback
  | _ => fallback

/-- `resolveCreatedAt` of `ingest.ts` (same logic, stricter pattern). -/
def resolveCreatedAtIngest (rawCreatedAt : Option FmValue) (fallback : String) : String :=
  match rawCreatedAt with
  | some (.vStr s) =>
    let value := trimString s
    if createdAtValidIngest value then value else fallback
  | _ => fallback

/-! ## Frontmatter written back by `link` and `ingest` -/

/-- Existing `paths` array, as `Array.isArray(fm.paths) ? fm.paths : []`. -/
def existingPathsOf (fm : Frontmatter) : List String :=
  match fmLookup fm "paths" with
  | some (.vList xs) => xs
  | _ => []

/-- The `mdmd_id` used by `link`: reuse a non-blank string value, else mint. -/
def linkMdmdId (fm : Frontmatter) (freshId : String) : String :=
  match fmLookup fm "mdmd_id" with
  | some (.vStr s) => if trimString s ≠ "" then s else freshId
  | _ => freshId

/-- The frontmatter `Link.run` writes back:
`{...existing, created_at, mdmd_id, paths}` with the legacy scalar `path`
key deleted afterwards. -/
def linkNextFrontmatter (fm : Frontmatter) (cwd now freshId : String) : Frontmatter :=
  let nextPaths :=
    if (existingPathsOf fm).contains cwd then existingPathsOf fm
    else existingPathsOf fm ++ [cwd]
  let withCreated := fmSet fm "created_at" (.vStr (resolveCreatedAt (fmLookup fm "created_at") now))
  let withId := fmSet withCreated "mdmd_id" (.vStr (linkMdmdId fm freshId))
  let withPaths := fmSet withId "paths" (.vList nextPaths)
  fmDelete withPaths "path"

/-- The frontmatter `Ingest.ingestSingleFile` writes:
`{...existing, created_at, mdmd_id, path: cwd}` then either refreshes
`git_sha` to the current HEAD or deletes a stale one. -/
def ingestNextFrontmatter (fm : Frontmatter) (cwd now mdmdId : String)
    (gitSha : Option String) : Frontmatter :=
  let withCreated :=
    fmSet fm "created_at" (.vStr (resolveCreatedAtIngest (fmLookup fm "created_at") now))
  let withId := fmSet withCreated "mdmd_id" (.vStr mdmdId)
  let base := fmSet withId "path" (.vStr cwd)
  match gitSha with
  | some sha => fmSet base "git_sha" (.vStr sha)
  | none => fmDelete base "git_sha"

/-! ## Cache store (`index-db.ts`)

One collection scope of the `index_notes` table.  The primary key is
`path_in_collection`; a partial unique index holds `mdmd_id` unique where
non-null, which is the only way a delete/upsert statement of the refresh
batch can fail. -/

structure CacheRow where
  pathInCollection : String
  mdmdId : Option String
  mtime : Nat
  size : Nat
  frontmatter : Frontmatter
deriving DecidableEq, Repr

/-- `deleteIndexNoteByPath`. -/
def deleteIndexNoteByPath (cache : List CacheRow) (pathInCollection : String) : List CacheRow :=
  cache.filter (fun r => r.pathInCollection ≠ pathInCollection)

/-- The row produced by `INSERT .. ON CONFLICT(path) DO UPDATE`: update in
place when the path exists, else append. -/
def upsertApply (cache : List CacheRow) (note : CacheRow) : List CacheRow :=
  if cache.any (fun r => r.pathInCollection = note.pathInCollection) then
    cache.map (fun r => if r.pathInCollection = note.pathInCollection then note else r)
  else
    cache ++ [note]

/-- `upsertIndexNote`: fails on a violation of the partial unique index on
`mdmd_id` (some other path already holds the same non-null id). -/
def upsertIndexNote (cache : List CacheRow) (note : CacheRow) : Except String (List CacheRow) :=
  match note.mdmdId with
  | some noteId =>
    if cache.any (fun r => r.pathInCollection ≠ note.pathInCollection ∧ r.mdmdId = some noteId) then
      .error "UNIQUE constraint failed: index_notes.mdmd_id"
    else
      .ok (upsertApply cache note)
  | none => .ok (upsertApply cache note)

/-- One statement of the refresh batch. -/
inductive CacheOp where
  | del (pathInCollection : String)
  | up (note : CacheRow)
deriving DecidableEq, Repr

/-- Execute one statement against the current table state. -/
def applyCacheOp (cache : List CacheRow) : CacheOp → Except String (List CacheRow)
  | .del p => .ok (deleteIndexNoteByPath cache p)
  | .up note => upsertIndexNote cache note

/-- Run the statements in order, stopping at the first error. -/
def runCacheOps : List CacheOp → List CacheRow → Except String (List CacheRow)
  | [], cache => .ok cache
  | op :: rest, cache =>
    match applyCacheOp cache op with
    | .ok cache1 => runCacheOps rest cache1
    | .error e => .error e

/-- `db.transaction(...)`: all statements commit together, and an error
anywhere rolls the table back to its state at `BEGIN`. -/
def withCacheTransaction (ops : List CacheOp) (cache : List CacheRow) :
    List CacheRow × Option String :=
  match runCacheOps ops cache with
  | .ok cache1 => (cache1, none)
  | .error e => (cache, some e)

/-! ## Refresh engine (`refresh-index.ts`) -/

/-- The fingerprint of a file: collection-relative path, mtime (seconds),
and byte size.  This is both a filesystem observation and what
`listIndexedFileStats` reads back from the cache. -/
structure FileStat where
  pathInCollection : String
  mtime : Nat
  size : Nat
deriving DecidableEq, Repr

/-- A markdown file found by the collection walk: its fingerprint plus the
frontmatter a re-parse of its contents would produce. -/
structure CollectionFile where
  stat : FileStat
  frontmatter : Frontmatter
deriving DecidableEq, Repr

/-- The fingerprint held by a cache row. -/
def statOfRow (r : CacheRow) : FileStat :=
  ⟨r.pathInCollection, r.mtime, r.size⟩

/-- `new Map(entries).get(key)`: the last entry with the key wins. -/
def jsMapGet : List FileStat → String → Option FileStat
  | [], _ => none
  | f :: rest, p =>
    match jsMapGet rest p with
    | some r => some r
    | none => if f.pathInCollection = p then some f else none

/-- `collectionFilesByPath.has(p)`. -/
def hasPathIn (files : List FileStat) (p : String) : Bool :=
  files.any (fun f => f.pathInCollection = p)

/-- `pathsToDelete`: indexed entries whose path no longer exists on disk. -/
def pathsToDelete (indexedFiles collectionStats : List FileStat) : List String :=
  (indexedFiles.filter (fun f => ¬ hasPathIn collectionStats f.pathInCollection)).map
    (·.pathInCollection)

/-- `shouldRefreshFile`: new on disk, or fingerprint mismatch. -/
def shouldRefreshFile (existingFile : Option FileStat) (nextFile : FileStat) : Bool :=
  match existingFile with
  | none => true
  | some e => e.mtime ≠ nextFile.mtime || e.size ≠ nextFile.size

/-- `filesToRefresh`: the walk results selected for re-read and re-parse. -/
def filesToRefresh (indexedFiles : List FileStat) (collectionFiles : List CollectionFile) :
    List CollectionFile :=
  collectionFiles.filter (fun f => shouldRefreshFile (jsMapGet indexedFiles f.stat.pathInCollection) f.stat)

/-- `toIndexNote`: re-parse a refreshed file into its cache row, extracting
`mdmd_id` when it is a non-blank string. -/
def toIndexNote (f : CollectionFile) : CacheRow :=
  let mdmdId :=
    match fmLookup f.frontmatter "mdmd_id" with
    | some (.vStr s) => if trimString s ≠ "" then some s else none
    | _ => none
  ⟨f.stat.pathInCollection, mdmdId, f.stat.mtime, f.stat.size, f.frontmatter⟩

/-- The full statement batch of one refresh: every delete, then every
upsert, all destined for a single transaction. -/
def refreshOps (cache : List CacheRow) (collectionFiles : List CollectionFile) : List CacheOp :=
  let indexedFiles := cache.map statOfRow
  (pathsToDelete indexedFiles (collectionFiles.map (·.stat))).map .del ++
    (filesToRefresh indexedFiles collectionFiles).map (fun f => .up (toIndexNote f))

/-- The counters `refreshIndex` returns. -/
structure RefreshResult where
  scanned : Nat
  refreshed : Nat
  deleted : Nat
  unchanged : Nat
deriving DecidableEq, Repr

/-- `refreshIndex`: compute the batch from the walk and the cached stats,
apply it in one transaction, report counts.  The second component of the
first pair is the error of a failed transaction. -/
def refreshIndex (cache : List CacheRow) (collectionFiles : List CollectionFile) :
    (List CacheRow × Option String) × RefreshResult :=
  let indexedFiles := cache.map statOfRow
  let deletePaths := pathsToDelete indexedFiles (collectionFiles.map (·.stat))
  let refreshFiles := filesToRefresh indexedFiles collectionFiles
  (withCacheTransaction (refreshOps cache collectionFiles) cache,
   ⟨collectionFiles.length, refreshFiles.length, deletePaths.length,
    collectionFiles.length - refreshFiles.length⟩)

/-! ## Desired symlink set (`sync-state.ts`) -/

structure DesiredSymlink where
  pathInCollection : String
  symlinkName : String
  targetPath : String
deriving DecidableEq, Repr

/-- Ascending insertion, for `ORDER BY path_in_collection ASC`. -/
def insertAsc (s : String) : List String → List String
  | [] => [s]
  | x :: xs => if strLe s x then s :: x :: xs else x :: insertAsc s xs

/-- Sort ascending. -/
def sortAsc (l : List String) : List String :=
  l.foldr insertAsc []

/-- `listManagedPathsForCwd`: the rows selected by
`WHERE mdmd_id IS NOT NULL AND json_extract(frontmatter, '$.path') = cwd
ORDER BY path_in_collection ASC`. -/
def listManagedPathsForCwd (cache : List CacheRow) (cwd : String) : List String :=
  sortAsc ((cache.filter (fun r =>
    r.mdmdId.isSome &&
      match fmLookup r.frontmatter "path" with
      | some (.vStr s) => s = cwd
      | _ => false)).map (·.pathInCollection))

/-- `resolveSymlinkName`: plain basename when free; otherwise the stem
suffixed with the parent directory name; an explicit error when even that
name is taken (or no parent exists to disambiguate with). -/
def resolveSymlinkName (pathInCollection : String) (usedSymlinkNames : List String) :
    Except String String :=
  match (splitOnSlash pathInCollection).getLast? with
  | none => .error ("Invalid path_in_collection: " ++ pathInCollection)
  | some basename =>
    if basename = "" then .error ("Invalid path_in_collection: " ++ pathInCollection)
    else if ¬ usedSymlinkNames.contains basename then .ok basename
    else
      let base := posixBasenameOf pathInCollection
      let parentName := posixBasenameOf (posixDirname pathInCollection)
      if parentName = "" ∨ parentName = "." ∨ parentName = "/" then
        .error ("Cannot disambiguate colliding symlink name for " ++ pathInCollection)
      else
        let disambiguatedName := posixNameOf base ++ "__" ++ parentName ++ posixExtOf base
        if usedSymlinkNames.contains disambiguatedName then
          .error ("Symlink collision cannot be resolved for " ++ pathInCollection)
        else .ok disambiguatedName

/-- The sequential accumulation of `buildDesiredSymlinks` over its mutable
used-name set. -/
def buildDesiredSymlinksGo (collectionRoot : String) (used : List String) :
    List String → Except String (List DesiredSymlink)
  | [] => .ok []
  | p :: rest =>
    match resolveSymlinkName p used with
    | .error e => .error e
    | .ok name =>
      match buildDesiredSymlinksGo collectionRoot (used ++ [name]) rest with
      | .error e => .error e
      | .ok tail => .ok (⟨p, name, joinPath collectionRoot p⟩ :: tail)

/-- `buildDesiredSymlinks`. -/
def buildDesiredSymlinks (collectionRoot : String) (pathInCollections : List String) :
    Except String (List DesiredSymlink) :=
  buildDesiredSymlinksGo collectionRoot [] pathInCollections

/-- The desired symlink set for a working directory, as computed by both
`Sync.run` and the doctor symlink checks and repair. -/
def desiredSymlinksFor (cache : List CacheRow) (collectionRoot cwd : String) :
    Except String (List DesiredSymlink) :=
  buildDesiredSymlinks collectionRoot (listManagedPathsForCwd cache cwd)

/-! ## Projection reconciler (`symlink.ts`, `Sync.run`, `applySymlinkFixes`)

A working symlink directory is an ordered list of named entries, each a
symlink with a stored target string or a non-symlink intrusion. -/

inductive WorkEntry where
  | link (target : String)
  | nonlink
deriving DecidableEq, Repr

abbrev WorkDir := List (String × WorkEntry)

/-- Association-list lookup by name/path. -/
def alookup {α : Type} (l : List (String × α)) (k : String) : Option α :=
  (l.find? (fun p => p.1 = k)).map (·.2)

/-- A recorded filesystem operation of the reconciler. -/
inductive FsOp where
  | opUnlink (name : String)
  | opSymlink (target name : String)
deriving DecidableEq, Repr

/-- Is the entry a symlink (`lstat(..).isSymbolicLink()`)? -/
def isLinkEntry : WorkEntry → Bool
  | .link _ => true
  | .nonlink => false

/-- `ensureSymlinkTarget`: leave a symlink already resolving to the desired
target alone; replace one resolving elsewhere; create a missing one; refuse
to touch a non-symlink. -/
def ensureSymlinkTarget (workingNotesDir name targetPath : String) (d : WorkDir) :
    Except String (WorkDir × List FsOp) :=
  match alookup d name with
  | some .nonlink =>
    .error ("Cannot create symlink because a non-symlink exists at " ++ name)
  | some (.link existingTarget) =>
    if jsResolveFrom workingNotesDir existingTarget = targetPath then .ok (d, [])
    else
      .ok ((d.filter (fun e => e.1 ≠ name)) ++ [(name, .link targetPath)],
           [.opUnlink name, .opSymlink targetPath name])
  | none => .ok (d ++ [(name, .link targetPath)], [.opSymlink targetPath name])

/-- Ensure every desired entry in order (the `Sync.run` ensure pass). -/
def ensureAllSymlinks (workingNotesDir : String) :
    List DesiredSymlink → WorkDir → Except String (WorkDir × List FsOp)
  | [], d => .ok (d, [])
  | e :: rest, d =>
    match ensureSymlinkTarget workingNotesDir e.symlinkName e.targetPath d with
    | .error msg => .error msg
    | .ok (d1, ops1) =>
      match ensureAllSymlinks workingNotesDir rest d1 with
      | .error msg => .error msg
      | .ok (d2, ops2) => .ok (d2, ops1 ++ ops2)

/-- The reconciliation of `Sync.run`: abort on any non-symlink entry,
remove stale names, then ensure every desired pair.  Returns the final
directory and the filesystem operations performed. -/
def syncReconcile (workingNotesDir : String) (desired : List DesiredSymlink) (d : WorkDir) :
    Except String (WorkDir × List FsOp) :=
  if d.any (fun e => e.2 = .nonlink) then
    .error "Expected symlink in notes dir but found non-symlink"
  else
    let desiredNames := desired.map (·.symlinkName)
    let staleSymlinks := d.filter (fun e => ¬ desiredNames.contains e.1)
    let kept := d.filter (fun e => desiredNames.contains e.1)
    match ensureAllSymlinks workingNotesDir desired kept with
    | .error msg => .error msg
    | .ok (d2, ensureOps) =>
      .ok (d2, staleSymlinks.map (fun e => .opUnlink e.1) ++ ensureOps)

/-- The doctor ensure pass: `Promise.allSettled` counts fulfilled ensures
and swallows rejections, leaving the directory untouched for a failed one. -/
def doctorEnsureAll (workingNotesDir : String) :
    List DesiredSymlink → WorkDir → WorkDir × Nat
  | [], d => (d, 0)
  | e :: rest, d =>
    match ensureSymlinkTarget workingNotesDir e.symlinkName e.targetPath d with
    | .ok (d1, _) =>
      let (d2, n) := doctorEnsureAll workingNotesDir rest d1
      (d2, n + 1)
    | .error _ =>
      let (d2, n) := doctorEnsureAll workingNotesDir rest d
      (d2, n)

/-- `applySymlinkFixes` of the doctor repair mode: remove stale symlinks
(skipping non-symlink entries), then ensure every desired pair, tolerating
per-entry failures.  Returns the directory plus (removed, ensured) counts. -/
def applySymlinkFixes (workingNotesDir : String) (desired : List DesiredSymlink) (d : WorkDir) :
    WorkDir × Nat × Nat :=
  let desiredNames := desired.map (·.symlinkName)
  let staleSymlinks := d.filter (fun e => isLinkEntry e.2 ∧ ¬ desiredNames.contains e.1)
  let afterRemove := d.filter (fun e => ¬ (isLinkEntry e.2 ∧ ¬ desiredNames.contains e.1))
  let (d2, ensured) := doctorEnsureAll workingNotesDir desired afterRemove
  (d2, staleSymlinks.length, ensured)

/-! ## Remove and unlink (`remove.ts`, the `Unlink` command) -/

structure Document where
  frontmatter : Frontmatter
  body : String
deriving DecidableEq, Repr

/-- The filesystem-and-cache state a removal batch operates on: the
physical documents by absolute path, the cache rows of the collection
scope, and the working symlink-directory entries by absolute path. -/
structure World where
  files : List (String × Document)
  cache : List CacheRow
  workEntries : List (String × WorkEntry)
deriving DecidableEq, Repr

structure ValidatedRemoval where
  otherPaths : List String
  pathInCollection : String
  symlinkPath : String
  targetPath : String
deriving DecidableEq, Repr

/-- The associations list `remove` validates: the `paths` array, or the
legacy non-blank scalar `path` as a one-element list. -/
def removeNotePaths (fm : Frontmatter) : List String :=
  match fmLookup fm "paths" with
  | some (.vList xs) => xs
  | _ =>
    match fmLookup fm "path" with
    | some (.vStr s) => if trimString s ≠ "" then [s] else []
    | _ => []

/-- `validateRemovalInput`: the side-effect-free pre-flight checks of one
`remove` argument (already resolved to an absolute symlink path). -/
def validateRemovalInput (w : World) (cwd collectionRoot symlinkDir : String) (force : Bool)
    (symlinkPath : String) : Except String ValidatedRemoval :=
  let workingNotesDir := joinPath cwd symlinkDir
  if ¬ isWithinDir workingNotesDir symlinkPath then
    .error ("Symlink must be in " ++ symlinkDir ++ ": " ++ symlinkPath)
  else
    match alookup w.workEntries symlinkPath with
    | none => .error ("Symlink does not exist: " ++ symlinkPath)
    | some .nonlink => .error ("Expected symlink but found non-symlink: " ++ symlinkPath)
    | some (.link linkTarget) =>
      let targetPath := jsResolveFrom (posixDirname symlinkPath) linkTarget
      match alookup w.files targetPath with
      | none => .error ("Symlink target not found: " ++ targetPath)
      | some doc =>
        if ¬ isWithinDir collectionRoot targetPath then
          .error ("Target is outside collection: " ++ targetPath)
        else
          let pathInCollection := toCollectionRelativePath collectionRoot targetPath
          let notePaths := removeNotePaths doc.frontmatter
          if notePaths.isEmpty then
            .error ("Note has no paths property in frontmatter: " ++ targetPath)
          else if ¬ notePaths.contains cwd then
            .error ("metadata mismatch: note is not associated with " ++ cwd)
          else
            let otherPaths := notePaths.filter (fun p => p ≠ cwd)
            if ¬ otherPaths.isEmpty ∧ ¬ force then
              .error ("also linked from other directories; use force to delete anyway")
            else
              .ok ⟨otherPaths, pathInCollection, symlinkPath, targetPath⟩

/-- Validate every argument of the batch, with no side effects; the batch
fails when any argument fails. -/
def validateRemovalBatch (w : World) (cwd collectionRoot symlinkDir : String) (force : Bool) :
    List String → Except String (List ValidatedRemoval)
  | [] => .ok []
  | a :: rest =>
    match validateRemovalInput w cwd collectionRoot symlinkDir force a with
    | .error e => .error e
    | .ok v =>
      match validateRemovalBatch w cwd collectionRoot symlinkDir force rest with
      | .error e => .error e
      | .ok vs => .ok (v :: vs)

/-- The execution effect of one validated removal: delete the physical
document, delete its cache row, remove the symlink. -/
def applyRemovalEntry (entry : ValidatedRemoval) (w : World) : World :=
  { files := w.files.filter (fun kv => kv.1 ≠ entry.targetPath)
    cache := deleteIndexNoteByPath w.cache entry.pathInCollection
    workEntries := w.workEntries.filter (fun kv => kv.1 ≠ entry.symlinkPath) }

/-- `processRemovalEntries`: execute the pre-validated batch in order. -/
def processRemovalEntries : List ValidatedRemoval → World → World
  | [], w => w
  | e :: rest, w => processRemovalEntries rest (applyRemovalEntry e w)

/-- `Remove.run` (non-interactive, not a dry run): validate the whole
batch first; only when every argument passed does execution begin. -/
def removeRun (w : World) (cwd collectionRoot symlinkDir : String) (force : Bool)
    (args : List String) : Option String × World :=
  match validateRemovalBatch w cwd collectionRoot symlinkDir force args with
  | .error e => (some e, w)
  | .ok entries => (none, processRemovalEntries entries w)

/-- `Unlink.unlinkSingle` (non-interactive): detach the note from `cwd` by
rewriting its `paths` list, upsert the cache row, remove the symlink; the
physical document is never deleted. -/
def unlinkSingle (w : World) (cwd collectionRoot symlinkDir : String) (symlinkPath : String)
    (newMtime newSize : Nat) : Option String × World :=
  let workingNotesDir := joinPath cwd symlinkDir
  if ¬ isWithinDir workingNotesDir symlinkPath then
    (some ("Symlink must be in " ++ symlinkDir ++ ": " ++ symlinkPath), w)
  else
    match alookup w.workEntries symlinkPath with
    | none => (some ("Symlink does not exist: " ++ symlinkPath), w)
    | some .nonlink => (some ("Symlink does not exist: " ++ symlinkPath), w)
    | some (.link linkTarget) =>
      let targetPath := jsResolveFrom (posixDirname symlinkPath) linkTarget
      if ¬ isWithinDir collectionRoot targetPath then
        (some ("Target is outside collection: " ++ targetPath), w)
      else
        match alookup w.files targetPath with
        | none => (some ("Cannot read target: " ++ targetPath), w)
        | some doc =>
          if jsFalsy (fmLookup doc.frontmatter "mdmd_id") then
            (some ("Note is not managed (no mdmd_id): " ++ targetPath), w)
          else
            let nextPaths := (existingPathsOf doc.frontmatter).filter (fun p => p ≠ cwd)
            let nextFrontmatter := fmSet doc.frontmatter "paths" (.vList nextPaths)
            let files1 := w.files.map (fun kv =>
              if kv.1 = targetPath then (kv.1, Document.mk nextFrontmatter doc.body) else kv)
            let pathInCollection := toCollectionRelativePath collectionRoot targetPath
            let mdmdId :=
              match fmLookup doc.frontmatter "mdmd_id" with
              | some (.vStr s) => some s
              | _ => none
            let note : CacheRow := ⟨pathInCollection, mdmdId, newMtime, newSize, nextFrontmatter⟩
            match upsertIndexNote w.cache note with
            | .error e => (some e, { w with files := files1 })
            | .ok cache1 =>
              (none,
               { files := files1
                 cache := cache1
                 workEntries := w.workEntries.filter (fun kv => kv.1 ≠ symlinkPath) })

/-! ## Concrete fixtures used by witnesses and counterexamples -/

/-- A managed note as `Link.run` writes it today: a `paths` array and no
legacy scalar `path` key. -/
def c3Frontmatter : Frontmatter :=
  [("mdmd_id", .vStr "11111111-1111-4111-8111-111111111111"),
   ("paths", .vList ["/work/project"]),
   ("created_at", .vStr "2024-01-02T03:04:05.000Z")]

/-- The cache row of that managed note. -/
def c3Row : CacheRow :=
  ⟨"note.md", some "11111111-1111-4111-8111-111111111111", 1, 10, c3Frontmatter⟩

/-- Cached fingerprints for the refresh fixtures: `a.md` unchanged,
`b.md` deleted on disk, `c.md` touched. -/
def c4CacheStats : List FileStat :=
  [⟨"a.md", 1, 10⟩, ⟨"b.md", 2, 20⟩, ⟨"c.md", 3, 30⟩]

/-- Walk results for the refresh fixtures: `a.md` identical, `c.md` with a
new mtime, `d.md` new on disk. -/
def c4Files : List CollectionFile :=
  [⟨⟨"a.md", 1, 10⟩, []⟩, ⟨⟨"c.md", 4, 30⟩, []⟩, ⟨⟨"d.md", 5, 50⟩, []⟩]

/-- Cache fixture for the transaction claim: two managed rows. -/
def c5Cache : List CacheRow :=
  [⟨"a.md", some "X", 1, 10, [("mdmd_id", .vStr "X")]⟩,
   ⟨"c.md", some "Y", 3, 30, [("mdmd_id", .vStr "Y")]⟩]

/-- Walk fixture whose batch fails mid-way: `c.md` is gone (a delete that
succeeds), and a new `b.md` carries the duplicate id `X` (an upsert that
violates the unique index after the delete already ran). -/
def c5Files : List CollectionFile :=
  [⟨⟨"a.md", 1, 10⟩, [("mdmd_id", .vStr "X")]⟩,
   ⟨⟨"b.md", 2, 20⟩, [("mdmd_id", .vStr "X")]⟩]

/-- Walk fixture whose batch succeeds: only the stale `c.md` delete. -/
def c5FilesOk : List CollectionFile :=
  [⟨⟨"a.md", 1, 10⟩, [("mdmd_id", .vStr "X")]⟩]

/-- World fixture for the batch-atomicity claim: two linked notes; the
second is also associated with another directory, so its removal without
`--force` fails validation. -/
def c1World : World :=
  { files :=
      [("/coll/notes/a.md", ⟨[("mdmd_id", .vStr "A"), ("paths", .vList ["/w"])], "a"⟩),
       ("/coll/notes/b.md", ⟨[("mdmd_id", .vStr "B"), ("paths", .vList ["/w", "/other"])], "b"⟩)]
    cache :=
      [⟨"notes/a.md", some "A", 1, 10, [("mdmd_id", .vStr "A"), ("paths", .vList ["/w"])]⟩,
       ⟨"notes/b.md", some "B", 2, 20, [("mdmd_id", .vStr "B"), ("paths", .vList ["/w", "/other"])]⟩]
    workEntries :=
      [("/w/mdmd_notes/a.md", .link "/coll/notes/a.md"),
       ("/w/mdmd_notes/b.md", .link "/coll/notes/b.md")] }

/-- World fixture for the execution claim: one note only linked from `/w`
(removable without force), one shared note (unlink detaches it). -/
def c2World : World :=
  { files :=
      [("/coll/notes/a.md", ⟨[("mdmd_id", .vStr "A"), ("paths", .vList ["/w"])], "a"⟩),
       ("/coll/notes/s.md", ⟨[("mdmd_id", .vStr "S"), ("paths", .vList ["/w", "/other"])], "s"⟩)]
    cache :=
      [⟨"notes/a.md", some "A", 1, 10, [("mdmd_id", .vStr "A"), ("paths", .vList ["/w"])]⟩,
       ⟨"notes/s.md", some "S", 2, 20, [("mdmd_id", .vStr "S"), ("paths", .vList ["/w", "/other"])]⟩]
    workEntries :=
      [("/w/mdmd_notes/a.md", .link "/coll/notes/a.md"),
       ("/w/mdmd_notes/s.md", .link "/coll/notes/s.md")] }

/-- Desired set fixture for the idempotence claim. -/
def c8Desired : List DesiredSymlink :=
  [⟨"a.md", "a.md", "/c/a.md"⟩, ⟨"b.md", "b.md", "/c/b.md"⟩]

/-- Directory fixture whose first reconciliation removes a stale symlink,
repairs a wrong-target symlink and creates a missing one. -/
def c8Dir : WorkDir :=
  [("old.md", .link "/c/old.md"), ("a.md", .link "/c/wrong.md")]

/-- The directory state after the first reconciliation of `c8Dir`. -/
def c8Dir1 : WorkDir :=
  [("a.md", .link "/c/a.md"), ("b.md", .link "/c/b.md")]

/-- Desired set fixture for the sync/doctor comparison. -/
def c9Desired : List DesiredSymlink := [⟨"a.md", "a.md", "/c/a.md"⟩]

/-- Directory fixture with a non-symlink intrusion plus a stale symlink:
sync aborts on it, doctor repair reconciles around it. -/
def c9Dir : WorkDir := [("junk.txt", .nonlink), ("old.md", .link "/c/old.md")]

/-- All-symlink directory fixture on which sync and doctor repair agree. -/
def c9DirLinks : WorkDir := [("old.md", .link "/c/old.md"), ("a.md", .link "/c/wrong.md")]

/-! # Theorems -/

/-! ## Frontmatter map lemmas -/

theorem fmLookup_cons (a : String × FmValue) (fm : Frontmatter) (k : String) :
    fmLookup (a :: fm) k = if a.1 = k then some a.2 else fmLookup fm k := by
  rcases a with ⟨k0, v0⟩
  by_cases h : k0 = k <;> simp [fmLookup, List.find?_cons, h]

theorem fmLookup_none_iff_any_false (fm : Frontmatter) (k : String) :
    fmLookup fm k = none ↔ fm.any (fun p => p.1 = k) = false := by
  induction fm with
  | nil => simp [fmLookup]
  | cons a t ih =>
    rcases a with ⟨k0, v0⟩
    by_cases h : k0 = k <;> simp [fmLookup_cons, h, ih]

theorem fmLookup_map_set_self (fm : Frontmatter) (k : String) (v : FmValue)
    (h : fmLookup fm k ≠ none) :
    fmLookup (fm.map (fun p => if p.1 = k then (k, v) else p)) k = some v := by
  induction fm with
  | nil => simp [fmLookup] at h
  | cons a t ih =>
    rcases a with ⟨k0, v0⟩
    by_cases hk : k0 = k
    · simp [hk, fmLookup_cons]
    · rw [fmLookup_cons] at h
      simp only [hk, if_false] at h
      simpa [hk, fmLookup_cons] using ih h

theorem fmLookup_map_set_ne (fm : Frontmatter) (k : String) (v : FmValue) (m : String)
    (h : m ≠ k) :
    fmLookup (fm.map (fun p => if p.1 = k then (k, v) else p)) m = fmLookup fm m := by
  induction fm with
  | nil => simp
  | cons a t ih =>
    rcases a with ⟨k0, v0⟩
    by_cases hk : k0 = k
    · simp [hk, fmLookup_cons, Ne.symm h, ih]
    · by_cases hm : k0 = m <;> simp [hk, hm, fmLookup_cons, ih, h]

theorem fmLookup_append_single_self (fm : Frontmatter) (k : String) (v : FmValue)
    (h : fmLookup fm k = none) :
    fmLookup (fm ++ [(k, v)]) k = some v := by
  induction fm with
  | nil => simp [fmLookup]
  | cons a t ih =>
    rcases a with ⟨k0, v0⟩
    rw [fmLookup_cons] at h
    by_cases hk : k0 = k
    · simp [hk] at h
    · rw [List.cons_append, fmLookup_cons]
      simp only [hk, if_false]
      exact ih (by simpa [hk] using h)

theorem fmLookup_append_single_ne (fm : Frontmatter) (k : String) (v : FmValue) (m : String)
    (h : m ≠ k) :
    fmLookup (fm ++ [(k, v)]) m = fmLookup fm m := by
  induction fm with
  | nil => simp [fmLookup, List.find?, Ne.symm h]
  | cons a t ih =>
    rcases a with ⟨k0, v0⟩
    by_cases hm : k0 = m <;> simp [List.cons_append, fmLookup_cons, hm, ih]

theorem fmLookup_fmSet_self (fm : Frontmatter) (k : String) (v : FmValue) :
    fmLookup (fmSet fm k v) k = some v := by
  unfold fmSet
  by_cases hany : fm.any (fun p => p.1 = k)
  · rw [if_pos hany]
    refine fmLookup_map_set_self fm k v ?_
    intro hnone
    rw [fmLookup_none_iff_any_false] at hnone
    simp [hnone] at hany
  · rw [if_neg hany]
    refine fmLookup_append_single_self fm k v ?_
    rw [fmLookup_none_iff_any_false]
    exact Bool.eq_false_iff.mpr hany

theorem fmLookup_fmSet_ne (fm : Frontmatter) (k : String) (v : FmValue) (m : String)
    (h : m ≠ k) :
    fmLookup (fmSet fm k v) m = fmLookup fm m := by
  unfold fmSet
  by_cases hany : fm.any (fun p => p.1 = k)
  · rw [if_pos hany]; exact fmLookup_map_set_ne fm k v m h
  · rw [if_neg hany]; exact fmLookup_append_single_ne fm k v m h

theorem fmLookup_fmDelete_self (fm : Frontmatter) (k : String) :
    fmLookup (fmDelete fm k) k = none := by
  induction fm with
  | nil => simp [fmDelete, fmLookup]
  | cons a t ih =>
    rcases a with ⟨k0, v0⟩
    simp only [fmDelete, ne_eq, decide_not] at ih ⊢
    by_cases hk : k0 = k
    · subst hk
      simpa [List.filter_cons] using ih
    · simp [List.filter_cons, hk, fmLookup_cons, ih]

theorem fmLookup_fmDelete_ne (fm : Frontmatter) (k m : String) (h : m ≠ k) :
    fmLookup (fmDelete fm k) m = fmLookup fm m := by
  induction fm with
  | nil => rfl
  | cons a t ih =>
    rcases a with ⟨k0, v0⟩
    simp only [fmDelete, ne_eq, decide_not] at ih ⊢
    by_cases hk : k0 = k
    · subst hk
      simp [List.filter_cons, fmLookup_cons, Ne.symm h, ih]
    · by_cases hm : k0 = m
      · subst hm
        simp [List.filter_cons, hk, fmLookup_cons]
      · simp [List.filter_cons, hk, hm, fmLookup_cons, ih]

/-! ## Claim C10: the associate operation and the legacy `path` key -/

/-- Claim C10: `Link.run` unconditionally deletes the legacy scalar
frontmatter key `path` from the document it writes back — the written-back
metadata has no `path` key regardless of its prior value — while every key
outside the maintained/stamped set `created_at`, `mdmd_id`, `paths` (and
`path` itself) is passed through unchanged. -/
theorem linkRun_removes_legacy_path_key (fm : Frontmatter) (cwd now freshId : String) :
    fmLookup (linkNextFrontmatter fm cwd now freshId) "path" = none ∧
    ∀ k : String, k ≠ "created_at" → k ≠ "mdmd_id" → k ≠ "paths" → k ≠ "path" →
      fmLookup (linkNextFrontmatter fm cwd now freshId) k = fmLookup fm k := by
  constructor
  · simp only [linkNextFrontmatter]
    exact fmLookup_fmDelete_self _ _
  · intro k h1 h2 h3 h4
    simp only [linkNextFrontmatter]
    rw [fmLookup_fmDelete_ne _ _ _ h4, fmLookup_fmSet_ne _ _ _ _ h3,
      fmLookup_fmSet_ne _ _ _ _ h2, fmLookup_fmSet_ne _ _ _ _ h1]

/-- Witness for C10 on a document carrying both a legacy `path` value and a
user-owned `title` key. -/
theorem linkRun_removes_legacy_path_key_witness :
    fmLookup (linkNextFrontmatter [("path", .vStr "/old"), ("title", .vStr "t")]
      "/w" "2024-05-06T07:08:09.000Z" "id-1") "path" = none ∧
    fmLookup (linkNextFrontmatter [("path", .vStr "/old"), ("title", .vStr "t")]
      "/w" "2024-05-06T07:08:09.000Z" "id-1") "title" =
      fmLookup [("path", .vStr "/old"), ("title", .vStr "t")] "title" :=
  ⟨(linkRun_removes_legacy_path_key _ _ _ _).1,
   (linkRun_removes_legacy_path_key _ _ _ _).2 "title"
     (by decide) (by decide) (by decide) (by decide)⟩

/-! ## Claim C6: stamped fields -/

/-- Claim C6 counterexample: stamped fields are not always preserved.
`Link.run` replaces an existing but non-ISO `created_at` value
(`"yesterday"`) with the fallback timestamp, and `Ingest.ingestSingleFile`
overwrites an existing `git_sha` with the current HEAD revision. -/
theorem stamped_fields_counterexample :
    fmLookup (linkNextFrontmatter [("created_at", FmValue.vStr "yesterday")]
      "/w" "2024-05-06T07:08:09.000Z" "id-1") "created_at" =
      some (.vStr "2024-05-06T07:08:09.000Z") ∧
    FmValue.vStr "2024-05-06T07:08:09.000Z" ≠ FmValue.vStr "yesterday" ∧
    fmLookup (ingestNextFrontmatter [("git_sha", FmValue.vStr "abc")]
      "/w" "2024-05-06T07:08:09.000Z" "id-2" (some "def")) "git_sha" =
      some (.vStr "def") ∧
    FmValue.vStr "def" ≠ FmValue.vStr "abc" :=
  ⟨by decide, by decide, by decide, by decide⟩

/-- Claim C6 as amended: `created_at` is preserved (trimmed) exactly when
its existing value is a string passing the ISO-8601 validation of the
mutating command, and is re-stamped with the fallback otherwise; the
`git_sha` snapshot is not write-once — ingest refreshes it to the current
HEAD revision whenever one exists and deletes it otherwise. -/
theorem stamped_fields_amended (fm : Frontmatter) (cwd now freshId mdmdId s gitSha : String) :
    (fmLookup fm "created_at" = some (.vStr s) → createdAtValidLink (trimString s) = true →
      fmLookup (linkNextFrontmatter fm cwd now freshId) "created_at" =
        some (.vStr (trimString s))) ∧
    (fmLookup fm "created_at" = some (.vStr s) → createdAtValidIngest (trimString s) = true →
      fmLookup (ingestNextFrontmatter fm cwd now mdmdId (some gitSha)) "created_at" =
        some (.vStr (trimString s))) ∧
    fmLookup (ingestNextFrontmatter fm cwd now mdmdId (some gitSha)) "git_sha" =
      some (.vStr gitSha) ∧
    fmLookup (ingestNextFrontmatter fm cwd now mdmdId none) "git_sha" = none := by
  refine ⟨?_, ?_, ?_, ?_⟩
  · intro hs hv
    simp only [linkNextFrontmatter]
    rw [fmLookup_fmDelete_ne _ _ _ (by decide), fmLookup_fmSet_ne _ _ _ _ (by decide),
      fmLookup_fmSet_ne _ _ _ _ (by decide), fmLookup_fmSet_self]
    simp [resolveCreatedAt, hs, hv]
  · intro hs hv
    simp only [ingestNextFrontmatter]
    rw [fmLookup_fmSet_ne _ _ _ _ (by decide), fmLookup_fmSet_ne _ _ _ _ (by decide),
      fmLookup_fmSet_ne _ _ _ _ (by decide), fmLookup_fmSet_self]
    simp [resolveCreatedAtIngest, hs, hv]
  · simp only [ingestNextFrontmatter]
    exact fmLookup_fmSet_self _ _ _
  · simp only [ingestNextFrontmatter]
    exact fmLookup_fmDelete_self _ _

/-- Witness for the amended C6 on a document with a valid existing
timestamp and on ingest with and without a current HEAD revision. -/
theorem stamped_fields_amended_witness :
    fmLookup (linkNextFrontmatter [("created_at", FmValue.vStr "2020-01-02T03:04:05Z")]
      "/w" "2024-05-06T07:08:09.000Z" "id-1") "created_at" =
      some (.vStr (trimString "2020-01-02T03:04:05Z")) ∧
    fmLookup (ingestNextFrontmatter [("created_at", FmValue.vStr "2020-01-02T03:04:05Z")]
      "/w" "2024-05-06T07:08:09.000Z" "id-2" (some "def")) "created_at" =
      some (.vStr (trimString "2020-01-02T03:04:05Z")) ∧
    fmLookup (ingestNextFrontmatter [("created_at", FmValue.vStr "2020-01-02T03:04:05Z")]
      "/w" "2024-05-06T07:08:09.000Z" "id-2" (some "def")) "git_sha" =
      some (.vStr "def") :=
  ⟨(stamped_fields_amended _ "/w" "2024-05-06T07:08:09.000Z" "id-1" "id-2"
      "2020-01-02T03:04:05Z" "def").1 (by decide) (by decide),
   (stamped_fields_amended _ "/w" "2024-05-06T07:08:09.000Z" "id-1" "id-2"
      "2020-01-02T03:04:05Z" "def").2.1 (by decide) (by decide),
   (stamped_fields_amended _ "/w" "2024-05-06T07:08:09.000Z" "id-1" "id-2"
      "2020-01-02T03:04:05Z" "def").2.2.1⟩

/-! ## Claim C3: the desired symlink set and the `paths` array -/

/-- Claim C3 is violated by the code: `listManagedPathsForCwd` filters on
the legacy scalar frontmatter key `path`
(`json_extract(frontmatter, '$.path') = cwd`), so a managed document whose
path-associations (`paths`) list contains the working directory — exactly
what `Link.run` writes, with the scalar key deleted — is excluded from the
desired symlink set used by sync and by the doctor checks and repair.  This
theorem evaluates the embedded code at such a document. -/
theorem desired_set_ignores_paths_array :
    c3Row.mdmdId.isSome = true ∧
    "/work/project" ∈ existingPathsOf c3Row.frontmatter ∧
    listManagedPathsForCwd [c3Row] "/work/project" = [] ∧
    desiredSymlinksFor [c3Row] "/coll" "/work/project" = .ok [] :=
  ⟨rfl, by decide, by decide, rfl⟩

/-! ## Claim C4: the refresh change-detection sets -/

theorem jsMapGet_cons (f : FileStat) (t : List FileStat) (p : String) :
    jsMapGet (f :: t) p =
      match jsMapGet t p with
      | some r => some r
      | none => if f.pathInCollection = p then some f else none := rfl

theorem jsMapGet_eq_none_iff (l : List FileStat) (p : String) :
    jsMapGet l p = none ↔ p ∉ l.map (·.pathInCollection) := by
  induction l with
  | nil => simp [jsMapGet]
  | cons f t ih =>
    rw [jsMapGet_cons]
    cases h : jsMapGet t p with
    | some r =>
      have hp : p ∈ t.map (·.pathInCollection) := by
        by_contra hc
        rw [← ih] at hc
        rw [h] at hc
        exact Option.some_ne_none r hc
      simp [hp]
    | none =>
      have hp : p ∉ t.map (·.pathInCollection) := ih.mp h
      by_cases hf : f.pathInCollection = p
      · simp [hf]
      · have hp2 : ¬ p = f.pathInCollection := fun hc => hf hc.symm
        simp [hf, hp, hp2]

theorem jsMapGet_some_mem (l : List FileStat) (p : String) (e : FileStat)
    (h : jsMapGet l p = some e) : e ∈ l ∧ e.pathInCollection = p := by
  induction l with
  | nil => simp [jsMapGet] at h
  | cons f t ih =>
    rw [jsMapGet_cons] at h
    cases ht : jsMapGet t p with
    | some r =>
      rw [ht] at h
      have h2 : r = e := by simpa using h
      subst h2
      obtain ⟨hm, hp⟩ := ih ht
      exact ⟨List.mem_cons_of_mem f hm, hp⟩
    | none =>
      rw [ht] at h
      by_cases hf : f.pathInCollection = p
      · rw [if_pos hf] at h
        have h2 : f = e := by simpa using h
        subst h2
        exact ⟨List.mem_cons_self _ _, hf⟩
      · rw [if_neg hf] at h
        simp at h

/-- Claim C4: for a refresh over cached fingerprints (with their unique
paths) and the filesystem walk, the deleted paths are exactly those cached
but absent from the walk, the re-parsed files are exactly those new to the
cache or with a differing (mtime, size) fingerprint, and a file whose
cached fingerprint matches is neither deleted nor re-parsed. -/
theorem refresh_sets_characterization (indexedFiles : List FileStat)
    (collectionFiles : List CollectionFile)
    (hnd : (indexedFiles.map (·.pathInCollection)).Nodup) :
    (∀ p : String,
       p ∈ pathsToDelete indexedFiles (collectionFiles.map (·.stat)) ↔
         (p ∈ indexedFiles.map (·.pathInCollection) ∧
          p ∉ collectionFiles.map (·.stat.pathInCollection))) ∧
    (∀ f : CollectionFile,
       f ∈ filesToRefresh indexedFiles collectionFiles ↔
         (f ∈ collectionFiles ∧
           (f.stat.pathInCollection ∉ indexedFiles.map (·.pathInCollection) ∨
            ∃ e ∈ indexedFiles, e.pathInCollection = f.stat.pathInCollection ∧
              (e.mtime ≠ f.stat.mtime ∨ e.size ≠ f.stat.size)))) ∧
    (∀ f : CollectionFile, ∀ e ∈ indexedFiles,
       f ∈ collectionFiles → e.pathInCollection = f.stat.pathInCollection →
       e.mtime = f.stat.mtime → e.size = f.stat.size →
       f ∉ filesToRefresh indexedFiles collectionFiles ∧
       f.stat.pathInCollection ∉ pathsToDelete indexedFiles (collectionFiles.map (·.stat))) := by
  have hhas : ∀ q : String,
      hasPathIn (collectionFiles.map (·.stat)) q = true ↔
        q ∈ collectionFiles.map (·.stat.pathInCollection) := by
    intro q
    simp only [hasPathIn, List.any_eq_true, decide_eq_true_eq]
    constructor
    · rintro ⟨gs, hgs, hq⟩
      obtain ⟨g, hg, rfl⟩ := List.mem_map.mp hgs
      exact List.mem_map.mpr ⟨g, hg, hq⟩
    · intro hq
      obtain ⟨g, hg, hq2⟩ := List.mem_map.mp hq
      exact ⟨g.stat, List.mem_map.mpr ⟨g, hg, rfl⟩, hq2⟩
  have hdel : ∀ p : String,
      p ∈ pathsToDelete indexedFiles (collectionFiles.map (·.stat)) ↔
        (p ∈ indexedFiles.map (·.pathInCollection) ∧
         p ∉ collectionFiles.map (·.stat.pathInCollection)) := by
    intro p
    constructor
    · intro hin
      obtain ⟨e, hmem, hp⟩ := List.mem_map.mp hin
      obtain ⟨he, hfilt⟩ := List.mem_filter.mp hmem
      rw [decide_eq_true_eq] at hfilt
      refine ⟨List.mem_map.mpr ⟨e, he, hp⟩, ?_⟩
      intro hc
      exact hfilt ((hhas e.pathInCollection).mpr (hp ▸ hc))
    · rintro ⟨hin, hno⟩
      obtain ⟨e, he, hp⟩ := List.mem_map.mp hin
      refine List.mem_map.mpr ⟨e, List.mem_filter.mpr ⟨he, ?_⟩, hp⟩
      rw [decide_eq_true_eq]
      intro habs
      exact hno (hp ▸ (hhas e.pathInCollection).mp habs)
  have href : ∀ f : CollectionFile,
      f ∈ filesToRefresh indexedFiles collectionFiles ↔
        (f ∈ collectionFiles ∧
          (f.stat.pathInCollection ∉ indexedFiles.map (·.pathInCollection) ∨
           ∃ e ∈ indexedFiles, e.pathInCollection = f.stat.pathInCollection ∧
             (e.mtime ≠ f.stat.mtime ∨ e.size ≠ f.stat.size))) := by
    intro f
    simp only [filesToRefresh, List.mem_filter]
    constructor
    · rintro ⟨hmem, hsr⟩
      refine ⟨hmem, ?_⟩
      cases hm : jsMapGet indexedFiles f.stat.pathInCollection with
      | none => exact Or.inl ((jsMapGet_eq_none_iff _ _).mp hm)
      | some e =>
        obtain ⟨hemem, hep⟩ := jsMapGet_some_mem _ _ _ hm
        rw [hm] at hsr
        simp only [shouldRefreshFile, Bool.or_eq_true, ne_eq, decide_eq_true_eq] at hsr
        exact Or.inr ⟨e, hemem, hep, hsr⟩
    · rintro ⟨hmem, hcase⟩
      refine ⟨hmem, ?_⟩
      cases hm : jsMapGet indexedFiles f.stat.pathInCollection with
      | none => simp [shouldRefreshFile]
      | some e =>
        obtain ⟨hemem, hep⟩ := jsMapGet_some_mem _ _ _ hm
        rcases hcase with hnotin | ⟨e2, he2mem, he2p, hdiff⟩
        · exact absurd (List.mem_map.mpr ⟨e, hemem, hep⟩) hnotin
        · have : e2 = e :=
            List.inj_on_of_nodup_map hnd he2mem hemem (by rw [hep, he2p])
          subst this
          simp only [shouldRefreshFile, Bool.or_eq_true, ne_eq, decide_eq_true_eq]
          exact hdiff
  refine ⟨hdel, href, ?_⟩
  intro f e hemem hfmem hep hmt hsz
  constructor
  · intro hin
    rcases ((href f).mp hin).2 with hnotin | ⟨e2, he2mem, he2p, hdiff⟩
    · exact hnotin (List.mem_map.mpr ⟨e, hemem, hep⟩)
    · have : e2 = e :=
        List.inj_on_of_nodup_map hnd he2mem hemem (by rw [hep, he2p])
      subst this
      rcases hdiff with hd | hd
      · exact hd hmt
      · exact hd hsz
  · intro hin
    exact ((hdel _).mp hin).2 (List.mem_map.mpr ⟨f, hfmem, rfl⟩)

/-- Witness for C4 on the concrete refresh fixtures: `b.md` is deleted,
the touched `c.md` and new `d.md` are re-parsed, and the untouched `a.md`
is neither. -/
theorem refresh_sets_characterization_witness :
    "b.md" ∈ pathsToDelete c4CacheStats (c4Files.map (·.stat)) ∧
    (⟨⟨"c.md", 4, 30⟩, []⟩ : CollectionFile) ∈ filesToRefresh c4CacheStats c4Files ∧
    (⟨⟨"d.md", 5, 50⟩, []⟩ : CollectionFile) ∈ filesToRefresh c4CacheStats c4Files ∧
    (⟨⟨"a.md", 1, 10⟩, []⟩ : CollectionFile) ∉ filesToRefresh c4CacheStats c4Files ∧
    "a.md" ∉ pathsToDelete c4CacheStats (c4Files.map (·.stat)) := by
  have h := refresh_sets_characterization c4CacheStats c4Files (by decide)
  refine ⟨(h.1 "b.md").mpr (by decide), (h.2.1 _).mpr (by decide),
    (h.2.1 _).mpr (by decide), ?_, ?_⟩
  · exact (h.2.2 ⟨⟨"a.md", 1, 10⟩, []⟩ ⟨"a.md", 1, 10⟩ (by decide) (by decide) rfl rfl rfl).1
  · exact (h.2.2 ⟨⟨"a.md", 1, 10⟩, []⟩ ⟨"a.md", 1, 10⟩ (by decide) (by decide) rfl rfl rfl).2

/-! ## Claim C5: the refresh batch is one atomic transaction -/

/-- Claim C5: `refreshIndex` applies the whole delete + upsert batch
through a single transaction: when it reports no error the cache is the
full sequential application of the batch, and when any statement errors
the cache is returned exactly as it was before the refresh. -/
theorem refresh_transaction_atomic (cache : List CacheRow) (collectionFiles : List CollectionFile) :
    ((refreshIndex cache collectionFiles).1.2 = none →
      runCacheOps (refreshOps cache collectionFiles) cache =
        .ok (refreshIndex cache collectionFiles).1.1) ∧
    (∀ e : String, (refreshIndex cache collectionFiles).1.2 = some e →
      (refreshIndex cache collectionFiles).1.1 = cache) := by
  simp only [refreshIndex, withCacheTransaction]
  cases h : runCacheOps (refreshOps cache collectionFiles) cache with
  | ok c1 => exact ⟨fun _ => rfl, fun e he => by simp at he⟩
  | error e0 => exact ⟨fun hc => by simp at hc, fun e he => rfl⟩

/-- Witness for C5: a batch whose delete succeeds and whose subsequent
upsert violates the unique `mdmd_id` index leaves the cache exactly at its
pre-refresh state (the already-executed delete included), while a batch
with no failing statement commits its full application. -/
theorem refresh_transaction_atomic_witness :
    (refreshIndex c5Cache c5Files).1.1 = c5Cache ∧
    runCacheOps (refreshOps c5Cache c5FilesOk) c5Cache =
      .ok (refreshIndex c5Cache c5FilesOk).1.1 :=
  ⟨(refresh_transaction_atomic c5Cache c5Files).2
      "UNIQUE constraint failed: index_notes.mdmd_id" (by decide),
   (refresh_transaction_atomic c5Cache c5FilesOk).1 (by decide)⟩

/-! ## Claim C1: remove batch atomicity -/

theorem validateRemovalBatch_error_of_exists (w : World) (cwd collectionRoot symlinkDir : String)
    (force : Bool) (args : List String)
    (h : ∃ a ∈ args, (validateRemovalInput w cwd collectionRoot symlinkDir force a).isOk = false) :
    ∃ e, validateRemovalBatch w cwd collectionRoot symlinkDir force args = .error e := by
  induction args with
  | nil => simp at h
  | cons x rest ih =>
    obtain ⟨a, ha, hbad⟩ := h
    simp only [validateRemovalBatch]
    cases hx : validateRemovalInput w cwd collectionRoot symlinkDir force x with
    | error e => exact ⟨e, rfl⟩
    | ok v =>
      rcases List.mem_cons.mp ha with rfl | hmem
      · rw [hx] at hbad
        simp [Except.isOk, Except.toBool] at hbad
      · obtain ⟨e, he⟩ := ih ⟨a, hmem, hbad⟩
        rw [he]
        exact ⟨e, rfl⟩

theorem validateRemovalBatch_ok_all (w : World) (cwd collectionRoot symlinkDir : String)
    (force : Bool) (args : List String) (vs : List ValidatedRemoval)
    (h : validateRemovalBatch w cwd collectionRoot symlinkDir force args = .ok vs) :
    ∀ a ∈ args, (validateRemovalInput w cwd collectionRoot symlinkDir force a).isOk = true := by
  induction args generalizing vs with
  | nil => simp
  | cons x rest ih =>
    intro a ha
    simp only [validateRemovalBatch] at h
    cases hx : validateRemovalInput w cwd collectionRoot symlinkDir force x with
    | error e => rw [hx] at h; simp at h
    | ok v =>
      rw [hx] at h
      cases hr : validateRemovalBatch w cwd collectionRoot symlinkDir force rest with
      | error e => rw [hr] at h; simp at h
      | ok vsr =>
        rcases List.mem_cons.mp ha with rfl | hmem
        · rw [hx]; rfl
        · exact ih vsr hr a hmem

/-- Claim C1: when any argument of a remove batch fails pre-flight
validation, the whole invocation aborts with the world (documents, cache,
symlinks) returned exactly as it was — zero mutations — and conversely a
run that did not abort had every argument pass validation, i.e. execution
begins only after the full batch validated. -/
theorem remove_batch_atomic (w : World) (cwd collectionRoot symlinkDir : String)
    (force : Bool) (args : List String) :
    ((∃ a ∈ args, (validateRemovalInput w cwd collectionRoot symlinkDir force a).isOk = false) →
      (removeRun w cwd collectionRoot symlinkDir force args).2 = w ∧
      (removeRun w cwd collectionRoot symlinkDir force args).1.isSome = true) ∧
    ((removeRun w cwd collectionRoot symlinkDir force args).1 = none →
      ∀ a ∈ args, (validateRemovalInput w cwd collectionRoot symlinkDir force a).isOk = true) := by
  constructor
  · intro h
    obtain ⟨e, he⟩ := validateRemovalBatch_error_of_exists w cwd collectionRoot symlinkDir force args h
    simp [removeRun, he]
  · intro hnone
    cases hb : validateRemovalBatch w cwd collectionRoot symlinkDir force args with
    | error e => simp [removeRun, hb] at hnone
    | ok vs => exact validateRemovalBatch_ok_all w cwd collectionRoot symlinkDir force args vs hb

/-- Witness for C1: a batch of two symlinks in which the second fails the
multi-directory rule leaves the world untouched and reports an error. -/
theorem remove_batch_atomic_witness :
    (removeRun c1World "/w" "/coll" "mdmd_notes" false
      ["/w/mdmd_notes/a.md", "/w/mdmd_notes/b.md"]).2 = c1World ∧
    (removeRun c1World "/w" "/coll" "mdmd_notes" false
      ["/w/mdmd_notes/a.md", "/w/mdmd_notes/b.md"]).1.isSome = true :=
  (remove_batch_atomic c1World "/w" "/coll" "mdmd_notes" false
      ["/w/mdmd_notes/a.md", "/w/mdmd_notes/b.md"]).1
    ⟨"/w/mdmd_notes/b.md", by decide, by decide⟩

/-! ## Claim C2: disassociate execution effects -/

theorem alookup_filter_ne_self {α : Type} (l : List (String × α)) (k : String) :
    alookup (l.filter (fun kv => kv.1 ≠ k)) k = none := by
  induction l with
  | nil => rfl
  | cons a t ih =>
    rcases a with ⟨k0, v0⟩
    simp only [ne_eq, decide_not] at ih ⊢
    by_cases hk : k0 = k
    · simpa [List.filter_cons, hk] using ih
    · simp [List.filter_cons, hk, alookup, List.find?_cons, ih]

theorem mem_deleteIndexNoteByPath (cache : List CacheRow) (p : String) (r : CacheRow)
    (h : r ∈ deleteIndexNoteByPath cache p) : r.pathInCollection ≠ p := by
  have := (List.mem_filter.mp h).2
  simpa using this

theorem alookup_map_overwrite {α : Type} (l : List (String × α)) (k : String) (d : α) (v : α)
    (h : alookup l k = some v) :
    alookup (l.map (fun kv => if kv.1 = k then (kv.1, d) else kv)) k = some d := by
  induction l with
  | nil => simp [alookup] at h
  | cons a t ih =>
    rcases a with ⟨k0, v0⟩
    by_cases hk : k0 = k
    · subst hk
      simp [alookup, List.find?_cons]
    · rw [show alookup ((k0, v0) :: t) k = alookup t k from by
        simp [alookup, List.find?_cons, hk]] at h
      have := ih h
      simpa [alookup, List.find?_cons, hk] using this

theorem upsertApply_mem (cache : List CacheRow) (note : CacheRow) :
    note ∈ upsertApply cache note := by
  unfold upsertApply
  by_cases hany : cache.any (fun r => r.pathInCollection = note.pathInCollection)
  · rw [if_pos hany]
    simp only [List.any_eq_true, decide_eq_true_eq] at hany
    obtain ⟨r, hr, hp⟩ := hany
    exact List.mem_map.mpr ⟨r, hr, by simp [hp]⟩
  · rw [if_neg hany]
    simp

theorem upsertIndexNote_mem (cache cache1 : List CacheRow) (note : CacheRow)
    (h : upsertIndexNote cache note = .ok cache1) : note ∈ cache1 := by
  unfold upsertIndexNote at h
  have hmem := upsertApply_mem cache note
  split at h
  · split at h
    · simp at h
    · injection h with h2
      rw [← h2]
      exact hmem
  · injection h with h2
    rw [← h2]
    exact hmem

/-- Claim C2: per argument that reaches execution, (remove mode) the
validation guarantees that without `--force` no other directory remains
associated — so the resulting association list is empty — and execution
deletes the physical document, its cache row and the symlink; (unlink,
the preserving mode) the requesting directory is removed from the `paths`
list, the document is rewritten in place with the trimmed list — never
deleted — and the cache row is upserted with the same trimmed metadata
while the symlink is removed. -/
theorem disassociate_execution (w : World) (cwd collectionRoot symlinkDir : String)
    (force : Bool) (arg : String) (v : ValidatedRemoval) (symlinkPath linkTarget : String)
    (doc : Document) (newMtime newSize : Nat) :
    (validateRemovalInput w cwd collectionRoot symlinkDir force arg = .ok v →
      (force = false → v.otherPaths = []) ∧
      alookup (applyRemovalEntry v w).files v.targetPath = none ∧
      (∀ r ∈ (applyRemovalEntry v w).cache, r.pathInCollection ≠ v.pathInCollection) ∧
      alookup (applyRemovalEntry v w).workEntries v.symlinkPath = none) ∧
    ((unlinkSingle w cwd collectionRoot symlinkDir symlinkPath newMtime newSize).1 = none →
      alookup w.workEntries symlinkPath = some (.link linkTarget) →
      alookup w.files (jsResolveFrom (posixDirname symlinkPath) linkTarget) = some doc →
      alookup (unlinkSingle w cwd collectionRoot symlinkDir symlinkPath newMtime newSize).2.files
          (jsResolveFrom (posixDirname symlinkPath) linkTarget) =
        some ⟨fmSet doc.frontmatter "paths"
          (.vList ((existingPathsOf doc.frontmatter).filter (fun p => p ≠ cwd))), doc.body⟩ ∧
      (∃ mid : Option String,
        (⟨toCollectionRelativePath collectionRoot
            (jsResolveFrom (posixDirname symlinkPath) linkTarget), mid, newMtime, newSize,
          fmSet doc.frontmatter "paths"
            (.vList ((existingPathsOf doc.frontmatter).filter (fun p => p ≠ cwd)))⟩ : CacheRow) ∈
          (unlinkSingle w cwd collectionRoot symlinkDir symlinkPath newMtime newSize).2.cache) ∧
      alookup (unlinkSingle w cwd collectionRoot symlinkDir symlinkPath newMtime newSize).2.workEntries
          symlinkPath = none) := by
  constructor
  · intro hok
    simp only [validateRemovalInput] at hok
    split at hok
    · simp at hok
    · split at hok
      · simp at hok
      · simp at hok
      · split at hok
        · simp at hok
        · split at hok
          · simp at hok
          · split at hok
            · simp at hok
            · split at hok
              · simp at hok
              · split at hok
                · simp at hok
                · rename_i hguard
                  cases hok
                  refine ⟨?_, alookup_filter_ne_self _ _,
                    fun r hr => mem_deleteIndexNoteByPath _ _ r hr,
                    alookup_filter_ne_self _ _⟩
                  intro hforce
                  subst hforce
                  refine List.isEmpty_iff.mp ?_
                  by_contra hne
                  exact hguard ⟨hne, by simp⟩
  · intro hres hlink hdoc
    by_cases h1 : isWithinDir (joinPath cwd symlinkDir) symlinkPath = true
    case neg =>
      simp [unlinkSingle, h1] at hres
    case pos =>
    by_cases h2 :
        isWithinDir collectionRoot (jsResolveFrom (posixDirname symlinkPath) linkTarget) = true
    case neg =>
      simp [unlinkSingle, h1, h2, hlink] at hres
    case pos =>
    by_cases h3 : jsFalsy (fmLookup doc.frontmatter "mdmd_id") = true
    case pos =>
      simp [unlinkSingle, h1, h2, h3, hlink, hdoc] at hres
    case neg =>
    simp only [unlinkSingle, h1, h2, h3, hlink, hdoc] at hres ⊢
    simp only [not_true_eq_false, if_false, Bool.false_eq_true, not_false_eq_true, if_true] at hres ⊢
    split at hres
    · simp at hres
    · rename_i cache1 heq
      refine ⟨?_, ?_, ?_⟩
      · exact alookup_map_overwrite w.files _ _ doc hdoc
      · exact ⟨_, upsertIndexNote_mem w.cache cache1 _ heq⟩
      · exact alookup_filter_ne_self _ _

/-- Witness for C2: removing the singly-associated note deletes document,
cache row and symlink; unlinking the shared note rewrites its `paths` to
only the other directory, keeps the file, upserts the cache row and drops
the symlink. -/
theorem disassociate_execution_witness :
    ((false = false →
        (⟨[], "notes/a.md", "/w/mdmd_notes/a.md", "/coll/notes/a.md"⟩ : ValidatedRemoval).otherPaths = []) ∧
      alookup (applyRemovalEntry ⟨[], "notes/a.md", "/w/mdmd_notes/a.md", "/coll/notes/a.md"⟩ c2World).files
        "/coll/notes/a.md" = none ∧
      (∀ r ∈ (applyRemovalEntry ⟨[], "notes/a.md", "/w/mdmd_notes/a.md", "/coll/notes/a.md"⟩ c2World).cache,
        r.pathInCollection ≠ "notes/a.md") ∧
      alookup (applyRemovalEntry ⟨[], "notes/a.md", "/w/mdmd_notes/a.md", "/coll/notes/a.md"⟩ c2World).workEntries
        "/w/mdmd_notes/a.md" = none) ∧
    (alookup (unlinkSingle c2World "/w" "/coll" "mdmd_notes" "/w/mdmd_notes/s.md" 9 90).2.files
        (jsResolveFrom (posixDirname "/w/mdmd_notes/s.md") "/coll/notes/s.md") =
      some ⟨fmSet [("mdmd_id", .vStr "S"), ("paths", .vList ["/w", "/other"])] "paths"
        (.vList ((existingPathsOf [("mdmd_id", .vStr "S"), ("paths", .vList ["/w", "/other"])]).filter
          (fun p => p ≠ "/w"))), "s"⟩ ∧
      (∃ mid : Option String,
        (⟨toCollectionRelativePath "/coll"
            (jsResolveFrom (posixDirname "/w/mdmd_notes/s.md") "/coll/notes/s.md"), mid, 9, 90,
          fmSet [("mdmd_id", .vStr "S"), ("paths", .vList ["/w", "/other"])] "paths"
            (.vList ((existingPathsOf [("mdmd_id", .vStr "S"), ("paths", .vList ["/w", "/other"])]).filter
              (fun p => p ≠ "/w")))⟩ : CacheRow) ∈
          (unlinkSingle c2World "/w" "/coll" "mdmd_notes" "/w/mdmd_notes/s.md" 9 90).2.cache) ∧
      alookup (unlinkSingle c2World "/w" "/coll" "mdmd_notes" "/w/mdmd_notes/s.md" 9 90).2.workEntries
        "/w/mdmd_notes/s.md" = none) :=
  ⟨(disassociate_execution c2World "/w" "/coll" "mdmd_notes" false "/w/mdmd_notes/a.md"
      ⟨[], "notes/a.md", "/w/mdmd_notes/a.md", "/coll/notes/a.md"⟩ "/w/mdmd_notes/s.md"
      "/coll/notes/s.md" ⟨[("mdmd_id", .vStr "S"), ("paths", .vList ["/w", "/other"])], "s"⟩
      9 90).1 rfl,
   (disassociate_execution c2World "/w" "/coll" "mdmd_notes" false "/w/mdmd_notes/a.md"
      ⟨[], "notes/a.md", "/w/mdmd_notes/a.md", "/coll/notes/a.md"⟩ "/w/mdmd_notes/s.md"
      "/coll/notes/s.md" ⟨[("mdmd_id", .vStr "S"), ("paths", .vList ["/w", "/other"])], "s"⟩
      9 90).2 rfl rfl rfl⟩

/-! ## Claim C7: symlink name collision policy -/

/-- Claim C7 counterexample: the first (and only) entry with basename
`x__b.md` does not get that basename — an earlier entry's disambiguation
already produced the name `x__b.md`, so the entry is silently renamed to
`x__b__q.md` instead of receiving its own basename. -/
theorem collision_first_basename_counterexample :
    buildDesiredSymlinks "/c" ["p/x.md", "b/x.md", "q/x__b.md"] =
      .ok [⟨"p/x.md", "x.md", "/c/p/x.md"⟩, ⟨"b/x.md", "x__b.md", "/c/b/x.md"⟩,
           ⟨"q/x__b.md", "x__b__q.md", "/c/q/x__b.md"⟩] ∧
    posixBasenameOf "q/x__b.md" = "x__b.md" ∧
    posixBasenameOf "p/x.md" ≠ "x__b.md" ∧
    posixBasenameOf "b/x.md" ≠ "x__b.md" ∧
    "x__b__q.md" ≠ "x__b.md" :=
  ⟨rfl, rfl, by decide, by decide, by decide⟩

theorem buildDesiredSymlinksGo_append (root : String) (used : List String)
    (ps : List String) (p : String) :
    buildDesiredSymlinksGo root used (ps ++ [p]) =
      match buildDesiredSymlinksGo root used ps with
      | .error e => .error e
      | .ok es =>
        match resolveSymlinkName p (used ++ es.map (·.symlinkName)) with
        | .error e => .error e
        | .ok name => .ok (es ++ [⟨p, name, joinPath root p⟩]) := by
  induction ps generalizing used with
  | nil =>
    cases h : resolveSymlinkName p used with
    | error e => simp [buildDesiredSymlinksGo, h]
    | ok name => simp [buildDesiredSymlinksGo, h]
  | cons x rest ih =>
    simp only [List.cons_append, buildDesiredSymlinksGo]
    cases hx : resolveSymlinkName x used with
    | error e => rfl
    | ok name =>
      dsimp only
      simp only [List.append_eq]
      rw [ih (used ++ [name])]
      cases hr : buildDesiredSymlinksGo root (used ++ [name]) rest with
      | error e => rfl
      | ok es =>
        dsimp only
        simp only [List.append_assoc, List.singleton_append, List.map_cons]
        cases hn : resolveSymlinkName p (used ++ name :: es.map (·.symlinkName)) with
        | error e => rfl
        | ok nm => simp

/-- Claim C7 as amended: an entry whose basename is not yet used as an
already-assigned symlink name gets its basename (in particular the first
entry with a given basename does, whenever no earlier disambiguated name
equals it); an entry whose basename is taken gets its stem suffixed with
its parent directory name; and when even that name is already used the
operation fails with an explicit named error rather than silently
overwriting either entry. -/
theorem buildDesiredSymlinks_collision_policy (root : String) (ps : List String) (p b : String)
    (es : List DesiredSymlink)
    (h : buildDesiredSymlinks root ps = .ok es)
    (hb : (splitOnSlash p).getLast? = some b) (hbne : b ≠ "") :
    (b ∉ es.map (·.symlinkName) →
      buildDesiredSymlinks root (ps ++ [p]) = .ok (es ++ [⟨p, b, joinPath root p⟩])) ∧
    (b ∈ es.map (·.symlinkName) →
      posixBasenameOf (posixDirname p) ≠ "" →
      posixBasenameOf (posixDirname p) ≠ "." →
      posixBasenameOf (posixDirname p) ≠ "/" →
      ((posixNameOf (posixBasenameOf p) ++ "__" ++ posixBasenameOf (posixDirname p) ++
          posixExtOf (posixBasenameOf p)) ∉ es.map (·.symlinkName) →
        buildDesiredSymlinks root (ps ++ [p]) =
          .ok (es ++ [⟨p, posixNameOf (posixBasenameOf p) ++ "__" ++
            posixBasenameOf (posixDirname p) ++ posixExtOf (posixBasenameOf p),
            joinPath root p⟩])) ∧
      ((posixNameOf (posixBasenameOf p) ++ "__" ++ posixBasenameOf (posixDirname p) ++
          posixExtOf (posixBasenameOf p)) ∈ es.map (·.symlinkName) →
        ∃ msg, buildDesiredSymlinks root (ps ++ [p]) = .error msg)) := by
  have hmain : buildDesiredSymlinks root (ps ++ [p]) =
      match resolveSymlinkName p (es.map (·.symlinkName)) with
      | .error e => .error e
      | .ok name => .ok (es ++ [⟨p, name, joinPath root p⟩]) := by
    unfold buildDesiredSymlinks at h ⊢
    rw [buildDesiredSymlinksGo_append root [] ps p, h]
    simp
  constructor
  · intro hnot
    have hres : resolveSymlinkName p (es.map (·.symlinkName)) = .ok b := by
      unfold resolveSymlinkName
      simp only [hb]
      rw [if_neg hbne,
        if_pos (show ¬ (es.map (·.symlinkName)).contains b = true from
          fun hx => hnot (List.elem_iff.mp hx))]
    rw [hmain, hres]
  · intro hmem hp1 hp2 hp3
    have hstep : resolveSymlinkName p (es.map (·.symlinkName)) =
        (if (es.map (·.symlinkName)).contains
            (posixNameOf (posixBasenameOf p) ++ "__" ++ posixBasenameOf (posixDirname p) ++
              posixExtOf (posixBasenameOf p)) = true then
          .error ("Symlink collision cannot be resolved for " ++ p)
        else
          .ok (posixNameOf (posixBasenameOf p) ++ "__" ++ posixBasenameOf (posixDirname p) ++
            posixExtOf (posixBasenameOf p))) := by
      unfold resolveSymlinkName
      simp only [hb]
      rw [if_neg hbne,
        if_neg (not_not_intro (show (es.map (·.symlinkName)).contains b = true from
          List.elem_iff.mpr hmem)),
        if_neg (show ¬ (posixBasenameOf (posixDirname p) = "" ∨
            posixBasenameOf (posixDirname p) = "." ∨ posixBasenameOf (posixDirname p) = "/") from
          fun hor => by rcases hor with h0 | h0 | h0
                        exacts [hp1 h0, hp2 h0, hp3 h0])]
    constructor
    · intro hnd
      have hres : resolveSymlinkName p (es.map (·.symlinkName)) =
          .ok (posixNameOf (posixBasenameOf p) ++ "__" ++ posixBasenameOf (posixDirname p) ++
            posixExtOf (posixBasenameOf p)) := by
        rw [hstep, if_neg (show ¬ (es.map (·.symlinkName)).contains
            (posixNameOf (posixBasenameOf p) ++ "__" ++ posixBasenameOf (posixDirname p) ++
              posixExtOf (posixBasenameOf p)) = true from
          fun hx => hnd (List.elem_iff.mp hx))]
      rw [hmain, hres]
    · intro hin
      refine ⟨"Symlink collision cannot be resolved for " ++ p, ?_⟩
      rw [hmain, hstep, if_pos (List.elem_iff.mpr hin)]

/-- Witness for the amended C7: with `x/b/note.md` already assigned
`note.md`, linking `y/b/note.md` resolves to `note__b.md`, and a third
entry `z/b/note.md` whose disambiguation also yields `note__b.md` makes
the build fail with an explicit error. -/
theorem buildDesiredSymlinks_collision_policy_witness :
    buildDesiredSymlinks "/c" (["x/b/note.md"] ++ ["y/b/note.md"]) =
      .ok ([⟨"x/b/note.md", "note.md", "/c/x/b/note.md"⟩] ++
        [⟨"y/b/note.md", "note__b.md", "/c/y/b/note.md"⟩]) ∧
    (∃ msg, buildDesiredSymlinks "/c" (["x/b/note.md", "y/b/note.md"] ++ ["z/b/note.md"]) =
      .error msg) :=
  ⟨by
    have h := buildDesiredSymlinks_collision_policy "/c" ["x/b/note.md"] "y/b/note.md" "note.md"
      [⟨"x/b/note.md", "note.md", "/c/x/b/note.md"⟩] rfl rfl (by decide)
    exact ((h.2 (by decide) (by decide) (by decide) (by decide)).1 (by decide)),
   by
    have h := buildDesiredSymlinks_collision_policy "/c" ["x/b/note.md", "y/b/note.md"]
      "z/b/note.md" "note.md"
      [⟨"x/b/note.md", "note.md", "/c/x/b/note.md"⟩,
       ⟨"y/b/note.md", "note__b.md", "/c/y/b/note.md"⟩] rfl rfl (by decide)
    exact ((h.2 (by decide) (by decide) (by decide) (by decide)).2 (by decide))⟩

/-! ## Claim C8: reconciler idempotence -/

theorem alookup_filter_ne_other {α : Type} (l : List (String × α)) (n m : String)
    (h : m ≠ n) :
    alookup (l.filter (fun kv => kv.1 ≠ n)) m = alookup l m := by
  induction l with
  | nil => rfl
  | cons a t ih =>
    rcases a with ⟨k0, v0⟩
    by_cases hk : k0 = n
    · subst hk
      have hk0m : ¬ k0 = m := fun hc => h (hc ▸ rfl)
      simp [List.filter_cons, alookup, List.find?_cons, hk0m]
      simpa [alookup] using ih
    · by_cases hm : k0 = m
      · subst hm
        simp [List.filter_cons, hk, alookup, List.find?_cons]
      · simp [List.filter_cons, hk, alookup, List.find?_cons, hm]
        simpa [alookup] using ih

theorem find?_key_singleton_ne {α : Type} (n m : String) (e : α) (h : m ≠ n) :
    List.find? (fun p => p.1 = m) [(n, e)] = none := by
  have : ¬ n = m := fun hc => h hc.symm
  simp [List.find?, this]

theorem alookup_replace_self {α : Type} (l : List (String × α)) (n : String) (e : α) :
    alookup ((l.filter (fun kv => kv.1 ≠ n)) ++ [(n, e)]) n = some e := by
  have h1 : List.find? (fun p => p.1 = n) (l.filter (fun kv => kv.1 ≠ n)) = none :=
    Option.map_eq_none'.mp (alookup_filter_ne_self l n)
  unfold alookup
  rw [List.find?_append, h1]
  simp [List.find?]

theorem alookup_replace_other {α : Type} (l : List (String × α)) (n m : String) (e : α)
    (h : m ≠ n) :
    alookup ((l.filter (fun kv => kv.1 ≠ n)) ++ [(n, e)]) m = alookup l m := by
  unfold alookup
  rw [List.find?_append, find?_key_singleton_ne n m e h, Option.or_none]
  exact alookup_filter_ne_other l n m h

theorem alookup_append_new_self {α : Type} (l : List (String × α)) (n : String) (e : α)
    (hnone : alookup l n = none) :
    alookup (l ++ [(n, e)]) n = some e := by
  unfold alookup
  rw [List.find?_append, Option.map_eq_none'.mp hnone]
  simp [List.find?]

theorem alookup_append_new_other {α : Type} (l : List (String × α)) (n m : String) (e : α)
    (h : m ≠ n) :
    alookup (l ++ [(n, e)]) m = alookup l m := by
  unfold alookup
  rw [List.find?_append, find?_key_singleton_ne n m e h, Option.or_none]

/-- Case analysis for a successful `ensureSymlinkTarget`: the existing
symlink already resolved to the target (no operations), or it resolved
elsewhere and was replaced, or the name was absent and was created. -/
theorem ensureSymlinkTarget_ok_spec (wd n t : String) (d d1 : WorkDir) (ops : List FsOp)
    (h : ensureSymlinkTarget wd n t d = .ok (d1, ops)) :
    (∃ t0, alookup d n = some (.link t0) ∧ jsResolveFrom wd t0 = t ∧ d1 = d ∧ ops = []) ∨
    (∃ t0, alookup d n = some (.link t0) ∧ jsResolveFrom wd t0 ≠ t ∧
      d1 = (d.filter (fun e => e.1 ≠ n)) ++ [(n, .link t)] ∧
      ops = [.opUnlink n, .opSymlink t n]) ∨
    (alookup d n = none ∧ d1 = d ++ [(n, .link t)] ∧ ops = [.opSymlink t n]) := by
  unfold ensureSymlinkTarget at h
  split at h
  · simp at h
  · rename_i t0 heq
    split at h
    · rename_i hres
      injection h with h2
      exact Or.inl ⟨t0, heq, hres,
        (congrArg Prod.fst h2).symm, (congrArg Prod.snd h2).symm⟩
    · rename_i hres
      injection h with h2
      exact Or.inr (Or.inl ⟨t0, heq, hres,
        (congrArg Prod.fst h2).symm, (congrArg Prod.snd h2).symm⟩)
  · rename_i heq
    injection h with h2
    exact Or.inr (Or.inr ⟨heq,
      (congrArg Prod.fst h2).symm, (congrArg Prod.snd h2).symm⟩)

theorem ensureSymlinkTarget_ok_self (wd n t : String) (d d1 : WorkDir) (ops : List FsOp)
    (habs : startsWithSlash t = true)
    (h : ensureSymlinkTarget wd n t d = .ok (d1, ops)) :
    ∃ t0, alookup d1 n = some (.link t0) ∧ jsResolveFrom wd t0 = t := by
  have hT : jsResolveFrom wd t = t := by simp [jsResolveFrom, habs]
  rcases ensureSymlinkTarget_ok_spec wd n t d d1 ops h with
    ⟨t0, heq, hres, hd, _⟩ | ⟨t0, _, _, hd, _⟩ | ⟨hnone, hd, _⟩
  · exact ⟨t0, hd ▸ heq, hres⟩
  · exact ⟨t, by rw [hd]; exact alookup_replace_self d n (.link t), hT⟩
  · exact ⟨t, by rw [hd]; exact alookup_append_new_self d n (.link t) hnone, hT⟩

theorem ensureSymlinkTarget_ok_other (wd n t : String) (d d1 : WorkDir) (ops : List FsOp)
    (h : ensureSymlinkTarget wd n t d = .ok (d1, ops)) (m : String) (hm : m ≠ n) :
    alookup d1 m = alookup d m := by
  rcases ensureSymlinkTarget_ok_spec wd n t d d1 ops h with
    ⟨t0, _, _, hd, _⟩ | ⟨t0, _, _, hd, _⟩ | ⟨_, hd, _⟩
  · rw [hd]
  · rw [hd]; exact alookup_replace_other d n m (.link t) hm
  · rw [hd]; exact alookup_append_new_other d n m (.link t) hm

theorem ensureSymlinkTarget_ok_links (wd n t : String) (d d1 : WorkDir) (ops : List FsOp)
    (h : ensureSymlinkTarget wd n t d = .ok (d1, ops))
    (hall : ∀ e ∈ d, isLinkEntry e.2 = true) :
    ∀ e ∈ d1, isLinkEntry e.2 = true := by
  rcases ensureSymlinkTarget_ok_spec wd n t d d1 ops h with
    ⟨t0, _, _, hd, _⟩ | ⟨t0, _, _, hd, _⟩ | ⟨_, hd, _⟩
  · rw [hd]; exact hall
  · rw [hd]
    intro e he
    rcases List.mem_append.mp he with hf | hs
    · exact hall e (List.mem_filter.mp hf).1
    · simp at hs
      rw [hs]
      rfl
  · rw [hd]
    intro e he
    rcases List.mem_append.mp he with hf | hs
    · exact hall e hf
    · simp at hs
      rw [hs]
      rfl

theorem ensureSymlinkTarget_ok_names (wd n t : String) (d d1 : WorkDir) (ops : List FsOp)
    (h : ensureSymlinkTarget wd n t d = .ok (d1, ops)) :
    ∀ m ∈ d1.map (·.1), m ∈ d.map (·.1) ∨ m = n := by
  rcases ensureSymlinkTarget_ok_spec wd n t d d1 ops h with
    ⟨t0, _, _, hd, _⟩ | ⟨t0, _, _, hd, _⟩ | ⟨_, hd, _⟩
  · rw [hd]; exact fun m hm => Or.inl hm
  · rw [hd]
    intro m hm
    rcases List.mem_map.mp hm with ⟨e, he, hme⟩
    rcases List.mem_append.mp he with hf | hs
    · exact Or.inl (List.mem_map.mpr ⟨e, (List.mem_filter.mp hf).1, hme⟩)
    · simp at hs
      rw [hs] at hme
      exact Or.inr hme.symm
  · rw [hd]
    intro m hm
    rcases List.mem_map.mp hm with ⟨e, he, hme⟩
    rcases List.mem_append.mp he with hf | hs
    · exact Or.inl (List.mem_map.mpr ⟨e, hf, hme⟩)
    · simp at hs
      rw [hs] at hme
      exact Or.inr hme.symm

theorem ensureSymlinkTarget_noop (wd n t : String) (d : WorkDir) (t0 : String)
    (hl : alookup d n = some (.link t0)) (hres : jsResolveFrom wd t0 = t) :
    ensureSymlinkTarget wd n t d = .ok (d, []) := by
  unfold ensureSymlinkTarget
  rw [hl]
  simp [hres]

theorem ensureAllSymlinks_other (wd : String) (desired : List DesiredSymlink)
    (d d2 : WorkDir) (ops : List FsOp)
    (h : ensureAllSymlinks wd desired d = .ok (d2, ops)) (m : String)
    (hm : m ∉ desired.map (·.symlinkName)) :
    alookup d2 m = alookup d m := by
  induction desired generalizing d ops with
  | nil =>
    unfold ensureAllSymlinks at h
    injection h with h2
    have hd : d2 = d := (congrArg Prod.fst h2).symm
    rw [hd]
  | cons e rest ih =>
    unfold ensureAllSymlinks at h
    split at h
    · simp at h
    · rename_i d1 ops1 heq1
      split at h
      · simp at h
      · rename_i d2' ops2 heq2
        injection h with h2
        have hd2 : d2 = d2' := (congrArg Prod.fst h2).symm
        subst hd2
        simp only [List.map_cons, List.mem_cons, not_or] at hm
        rw [ih d1 ops2 heq2 hm.2]
        exact ensureSymlinkTarget_ok_other wd e.symlinkName e.targetPath d d1 ops1 heq1 m hm.1

/-- After a successful ensure pass every entry is a symlink, every entry
name came from the initial directory or the desired set, and every desired
pair resolves to its exact target. -/
theorem ensureAllSymlinks_post (wd : String) (desired : List DesiredSymlink)
    (d d2 : WorkDir) (ops : List FsOp)
    (hnodup : (desired.map (·.symlinkName)).Nodup)
    (habs : ∀ e ∈ desired, startsWithSlash e.targetPath = true)
    (hall : ∀ e ∈ d, isLinkEntry e.2 = true)
    (h : ensureAllSymlinks wd desired d = .ok (d2, ops)) :
    (∀ e ∈ d2, isLinkEntry e.2 = true) ∧
    (∀ m ∈ d2.map (·.1), m ∈ d.map (·.1) ∨ m ∈ desired.map (·.symlinkName)) ∧
    (∀ e ∈ desired, ∃ t0, alookup d2 e.symlinkName = some (.link t0) ∧
      jsResolveFrom wd t0 = e.targetPath) := by
  induction desired generalizing d ops with
  | nil =>
    unfold ensureAllSymlinks at h
    injection h with h2
    have hd2 : d2 = d := (congrArg Prod.fst h2).symm
    subst hd2
    exact ⟨hall, fun m hm => Or.inl hm, by simp⟩
  | cons e rest ih =>
    unfold ensureAllSymlinks at h
    split at h
    · simp at h
    · rename_i d1 ops1 heq1
      split at h
      · simp at h
      · rename_i d2' ops2 heq2
        injection h with h2
        have hd2 : d2 = d2' := (congrArg Prod.fst h2).symm
        subst hd2
        simp only [List.map_cons, List.nodup_cons] at hnodup
        have hd1links := ensureSymlinkTarget_ok_links wd e.symlinkName e.targetPath d d1 ops1 heq1 hall
        have hd1names := ensureSymlinkTarget_ok_names wd e.symlinkName e.targetPath d d1 ops1 heq1
        obtain ⟨hlinks2, hnames2, hsat2⟩ :=
          ih d1 ops2 hnodup.2 (fun x hx => habs x (List.mem_cons_of_mem e hx)) hd1links heq2
        refine ⟨hlinks2, ?_, ?_⟩
        · intro m hm
          rcases hnames2 m hm with hin1 | hinr
          · rcases hd1names m hin1 with hind | hine
            · exact Or.inl hind
            · exact Or.inr (by simp [hine])
          · exact Or.inr (by simp [hinr])
        · intro x hx
          rcases List.mem_cons.mp hx with rfl | hxr
          · obtain ⟨t0, hl, hres⟩ :=
              ensureSymlinkTarget_ok_self wd x.symlinkName x.targetPath d d1 ops1
                (habs x (List.mem_cons_self x rest)) heq1
            refine ⟨t0, ?_, hres⟩
            rw [ensureAllSymlinks_other wd rest d1 d2 ops2 heq2 x.symlinkName hnodup.1]
            exact hl
          · exact hsat2 x hxr

theorem ensureAllSymlinks_noop (wd : String) (desired : List DesiredSymlink) (d : WorkDir)
    (hsat : ∀ e ∈ desired, ∃ t0, alookup d e.symlinkName = some (.link t0) ∧
      jsResolveFrom wd t0 = e.targetPath) :
    ensureAllSymlinks wd desired d = .ok (d, []) := by
  induction desired with
  | nil => rfl
  | cons e rest ih =>
    obtain ⟨t0, hl, hres⟩ := hsat e (List.mem_cons_self e rest)
    unfold ensureAllSymlinks
    rw [ensureSymlinkTarget_noop wd e.symlinkName e.targetPath d t0 hl hres]
    dsimp only
    rw [ih (fun x hx => hsat x (List.mem_cons_of_mem e hx))]
    rfl

/-- Claim C8: the `Sync.run` reconciliation is idempotent — after any
successful run producing directory state `d1`, running it again with the
same desired set (whose names are unique and targets absolute) succeeds,
performs zero filesystem operations, and leaves the state at `d1`. -/
theorem syncReconcile_idempotent (wd : String) (desired : List DesiredSymlink)
    (d d1 : WorkDir) (ops : List FsOp)
    (hnodup : (desired.map (·.symlinkName)).Nodup)
    (habs : ∀ e ∈ desired, startsWithSlash e.targetPath = true)
    (h : syncReconcile wd desired d = .ok (d1, ops)) :
    syncReconcile wd desired d1 = .ok (d1, []) := by
  simp only [syncReconcile] at h
  split at h
  · simp at h
  · rename_i hany
    split at h
    · simp at h
    · rename_i x ensOps heq
      injection h with h2
      have hxd : d1 = x := (congrArg Prod.fst h2).symm
      subst hxd
      have halld : ∀ e ∈ d, isLinkEntry e.2 = true := by
        intro e he
        cases hcase : e.2 with
        | link t => rfl
        | nonlink =>
          exact absurd (List.any_eq_true.mpr ⟨e, he, by simp [hcase]⟩) hany
      have hkeptlinks : ∀ e ∈ d.filter (fun e => (desired.map (·.symlinkName)).contains e.1),
          isLinkEntry e.2 = true :=
        fun e he => halld e (List.mem_filter.mp he).1
      obtain ⟨hlinks1, hnames1, hsat1⟩ :=
        ensureAllSymlinks_post wd desired _ _ _ hnodup habs hkeptlinks heq
      have hnamesub : ∀ m ∈ d1.map (·.1), m ∈ desired.map (·.symlinkName) := by
        intro m hm
        rcases hnames1 m hm with hk | hdes
        · rcases List.mem_map.mp hk with ⟨e, he, hme⟩
          have := (List.mem_filter.mp he).2
          rw [← hme]
          exact List.elem_iff.mp this
        · exact hdes
      simp only [syncReconcile]
      rw [if_neg ?hno]
      case hno =>
        intro hc
        obtain ⟨e, he, hnl⟩ := List.any_eq_true.mp hc
        rw [decide_eq_true_eq] at hnl
        have := hlinks1 e he
        rw [hnl] at this
        simp [isLinkEntry] at this
      have hstale : d1.filter (fun e => ¬ (desired.map (·.symlinkName)).contains e.1) = [] := by
        rw [List.filter_eq_nil_iff]
        intro e he
        simp only [decide_eq_true_eq, not_not]
        exact List.elem_iff.mpr (hnamesub e.1 (List.mem_map.mpr ⟨e, he, rfl⟩))
      have hkept : d1.filter (fun e => (desired.map (·.symlinkName)).contains e.1) = d1 := by
        rw [List.filter_eq_self]
        intro e he
        exact List.elem_iff.mpr (hnamesub e.1 (List.mem_map.mpr ⟨e, he, rfl⟩))
      rw [hstale, hkept, ensureAllSymlinks_noop wd desired d1 hsat1]
      rfl

/-- Witness for C8 on the concrete fixture: the second reconciliation of
the repaired directory succeeds with zero operations. -/
theorem syncReconcile_idempotent_witness :
    syncReconcile "/w/mdmd_notes" c8Desired c8Dir1 = .ok (c8Dir1, []) :=
  syncReconcile_idempotent "/w/mdmd_notes" c8Desired c8Dir c8Dir1
    [.opUnlink "old.md", .opUnlink "a.md", .opSymlink "/c/a.md" "a.md",
     .opSymlink "/c/b.md" "b.md"]
    (by decide) (by decide) (by rfl)

/-! ## Claim C9: sync versus doctor repair -/

theorem alookup_mem {α : Type} (l : List (String × α)) (k : String) (v : α)
    (h : alookup l k = some v) : (k, v) ∈ l := by
  induction l with
  | nil => simp [alookup] at h
  | cons a t ih =>
    rcases a with ⟨k0, v0⟩
    by_cases hk : k0 = k
    · subst hk
      have h2 : v0 = v := by simpa [alookup, List.find?_cons] using h
      rw [← h2]
      exact List.mem_cons_self _ _
    · replace h : alookup t k = some v := by
        simpa [alookup, List.find?_cons, hk] using h
      exact List.mem_cons_of_mem _ (ih h)

/-- On an all-symlink directory the per-entry ensure never fails, so the
sync ensure pass and the doctor ensure pass (which counts fulfilled
promises) produce the same directory, and the doctor count is the full
desired-set size. -/
theorem ensure_doctor_agree_links (wd : String) (desired : List DesiredSymlink) (d : WorkDir)
    (hall : ∀ e ∈ d, isLinkEntry e.2 = true) :
    ∃ d2 ops, ensureAllSymlinks wd desired d = .ok (d2, ops) ∧
      doctorEnsureAll wd desired d = (d2, desired.length) ∧
      (∀ e ∈ d2, isLinkEntry e.2 = true) := by
  induction desired generalizing d with
  | nil => exact ⟨d, [], rfl, rfl, hall⟩
  | cons e rest ih =>
    have hok : ∃ d1 ops1,
        ensureSymlinkTarget wd e.symlinkName e.targetPath d = .ok (d1, ops1) := by
      unfold ensureSymlinkTarget
      cases hl : alookup d e.symlinkName with
      | none => exact ⟨_, _, rfl⟩
      | some entry =>
        cases entry with
        | link t0 =>
          by_cases hres : jsResolveFrom wd t0 = e.targetPath
          · exact ⟨d, [], by dsimp only; rw [if_pos hres]⟩
          · exact ⟨_, _, by dsimp only; rw [if_neg hres]⟩
        | nonlink =>
          have := hall _ (alookup_mem d e.symlinkName .nonlink hl)
          simp [isLinkEntry] at this
    obtain ⟨d1, ops1, hens⟩ := hok
    have hd1links := ensureSymlinkTarget_ok_links wd _ _ d d1 ops1 hens hall
    obtain ⟨d2, ops2, hens2, hdoc2, hlinks2⟩ := ih d1 hd1links
    refine ⟨d2, ops1 ++ ops2, ?_, ?_, hlinks2⟩
    · unfold ensureAllSymlinks
      rw [hens]
      dsimp only
      rw [hens2]
    · unfold doctorEnsureAll
      rw [hens]
      dsimp only
      rw [hdoc2]
      simp

/-- Claim C9 counterexample: a non-symlink intrusion plus a stale symlink.
`Sync.run` aborts with an error (no reconciliation happens), while doctor
repair removes the stale symlink and creates the desired one — the two
code paths leave the symlink directory in different final states. -/
theorem sync_doctor_divergence_counterexample :
    (syncReconcile "/w/mdmd_notes" c9Desired c9Dir).isOk = false ∧
    applySymlinkFixes "/w/mdmd_notes" c9Desired c9Dir =
      ([("junk.txt", .nonlink), ("a.md", .link "/c/a.md")], 1, 1) ∧
    ([("junk.txt", WorkEntry.nonlink), ("a.md", WorkEntry.link "/c/a.md")] : WorkDir) ≠ c9Dir :=
  ⟨rfl, rfl, by decide⟩

/-- Claim C9 as amended: both code paths compute the desired set with the
same functions, and on a symlink directory containing only symlinks the
sync reconciliation and the doctor repair leave the directory in the same
final state (doctor reporting the stale-removal and ensure counts); they
diverge only on non-symlink entries, where sync aborts and doctor repair
skips the intrusion and reconciles the rest. -/
theorem sync_doctor_reconcile_agree (wd : String) (desired : List DesiredSymlink) (d : WorkDir)
    (hall : ∀ e ∈ d, isLinkEntry e.2 = true) :
    ∃ d2 ops, syncReconcile wd desired d = .ok (d2, ops) ∧
      applySymlinkFixes wd desired d =
        (d2, (d.filter (fun e => ¬ (desired.map (·.symlinkName)).contains e.1)).length,
          desired.length) := by
  have hno : d.any (fun e => e.2 = .nonlink) = false := by
    refine Bool.eq_false_iff.mpr ?_
    intro hc
    obtain ⟨e, he, hnl⟩ := List.any_eq_true.mp hc
    rw [decide_eq_true_eq] at hnl
    have := hall e he
    rw [hnl] at this
    simp [isLinkEntry] at this
  have hstaleeq :
      d.filter (fun e => isLinkEntry e.2 ∧ ¬ (desired.map (·.symlinkName)).contains e.1) =
        d.filter (fun e => ¬ (desired.map (·.symlinkName)).contains e.1) := by
    apply List.filter_congr
    intro e he
    simp [hall e he]
  have hkeepeq :
      d.filter (fun e => ¬ (isLinkEntry e.2 ∧ ¬ (desired.map (·.symlinkName)).contains e.1)) =
        d.filter (fun e => (desired.map (·.symlinkName)).contains e.1) := by
    apply List.filter_congr
    intro e he
    simp [hall e he]
  obtain ⟨d2, ops, hens, hdoc, _⟩ :=
    ensure_doctor_agree_links wd desired
      (d.filter (fun e => (desired.map (·.symlinkName)).contains e.1))
      (fun e he => hall e (List.mem_filter.mp he).1)
  refine ⟨d2,
    (d.filter (fun e => ¬ (desired.map (·.symlinkName)).contains e.1)).map
      (fun e => .opUnlink e.1) ++ ops, ?_, ?_⟩
  · simp only [syncReconcile]
    rw [hno]
    rw [if_neg (by simp)]
    rw [hens]
  · simp only [applySymlinkFixes]
    rw [hstaleeq, hkeepeq, hdoc]

/-- Witness for the amended C9 on the all-symlink fixture. -/
theorem sync_doctor_reconcile_agree_witness :
    ∃ d2 ops, syncReconcile "/w/mdmd_notes" c9Desired c9DirLinks = .ok (d2, ops) ∧
      applySymlinkFixes "/w/mdmd_notes" c9Desired c9DirLinks =
        (d2,
         (c9DirLinks.filter
           (fun e => ¬ (c9Desired.map (·.symlinkName)).contains e.1)).length,
         c9Desired.length) :=
  sync_doctor_reconcile_agree "/w/mdmd_notes" c9Desired c9DirLinks (by decide)

end Mdmd
